import Mathlib

/-!
Verification of the element-composition and ray-propagation engine of the
RayTracing repository (`raytracing/matrixgroup.py`), against its
natural-language specification.

The `MatrixGroup` class under verification lives in
`src/raytracing/matrixgroup.py`.  The leaf element class `Matrix` (with its
subclasses `Space` and `Lens`) and the `Ray` value type are imported there
from `raytracing/matrix.py`, which is not part of the inspected sources;
those definitions are modelled from the specification (sections 3, 4.1) and
from the documented behaviour quoted in `matrixgroup.py` docstrings.

Real-valued quantities of the Python code are embedded as rationals; all
the concrete arithmetic exercised by the claims is exact.  Exceptions are
embedded as `Option Err` results paired with the (possibly mutated) state,
since a Python object survives an exception raised by one of its methods.
-/

namespace RayTracing

/-- Error outcomes of the engine.  `typeErr` stands for Python `TypeError`,
`valueErr` for the index-mismatch `ValueError` in `append`, `indexErr idx mx`
for the `IndexError` naming the offending index and the largest valid index,
and `indexErrSame` for the `replaceChunk` error demanding distinct start and
stop indices. -/
inductive Err where
  | typeErr : Err
  | valueErr : Err
  | indexErr : Int → Int → Err
  | indexErrSame : Err
deriving DecidableEq

/-- Modelled from the spec: a `TransferElement` (Python class `Matrix` of
`raytracing/matrix.py`, not under the inspected sources) carries the 2x2
operator entries `A,B,C,D`, physical length `L`, front/back refractive
indices, front/back vertex offsets (`none` models Python `None`), an
optional finite aperture diameter (`none` models the `+inf` sentinel).
`isSpace` models the Python `isinstance(x, Space)` test that `append` and
the partial-transfer-matrix dispatch rely on. -/
structure Matrix where
  A : ℚ
  B : ℚ
  C : ℚ
  D : ℚ
  L : ℚ
  frontIndex : ℚ
  backIndex : ℚ
  frontVertex : Option ℚ
  backVertex : Option ℚ
  apertureDiameter : Option ℚ
  isSpace : Bool
deriving DecidableEq

/-- Modelled from the spec: a `Ray` carries height `y` and angle `theta`,
a blocked flag and the axial position `z`.  Python's single-entry trace
cache is keyed by reference identity of the ray object; `rid` represents
that object identity (two rays with equal `y`/`theta` but different `rid`
model two distinct Python objects). -/
structure Ray where
  y : ℚ
  theta : ℚ
  isBlocked : Bool
  z : ℚ
  rid : Nat
deriving DecidableEq

/-- `Matrix(A=1, B=0, C=0, D=1)` with the constructor defaults: zero length,
unit refractive indices, no vertices, unbounded aperture. -/
def idMatrix : Matrix :=
  ⟨1, 0, 0, 1, 0, 1, 1, none, none, none, false⟩

/-- Modelled from the spec: `Space(d, n)`, the free-space spacer of length
`d` in a medium of index `n` (default `n = 1`): translation matrix, equal
front and back indices, no vertices, unbounded aperture. -/
def Space (d : ℚ) (n : ℚ) : Matrix :=
  ⟨1, d, 0, 1, d, n, n, none, none, none, true⟩

/-- Modelled from the spec: `Lens(f, diameter)`, a thin lens of focal
length `f`: zero length, power `-1/f`, vertices at the lens plane,
optionally a finite aperture diameter. -/
def Lens (f : ℚ) (diameter : Option ℚ) : Matrix :=
  ⟨1, 0, -(1 / f), 1, 0, 1, 1, some 0, some 0, diameter, false⟩

/-- Modelled from the spec (section 4.1, Composition): the product of two
elements; entries compose as the 2x2 matrix product, lengths add, and the
front/back indices and vertices come from the outer elements (right's
front, left's back).  The product is a plain composite element: it is not
a `Space` and carries no aperture of its own. -/
def Matrix.mul (l : Matrix) (r : Matrix) : Matrix :=
  ⟨l.A * r.A + l.B * r.C, l.A * r.B + l.B * r.D,
   l.C * r.A + l.D * r.C, l.C * r.B + l.D * r.D,
   l.L + r.L,
   r.frontIndex, l.backIndex,
   r.frontVertex, l.backVertex,
   none, false⟩

/-- `upTo` distances: `none` models the `float('+Inf')` default.  `leDist l d`
is the Python comparison `l <= d` (everything is below `+Inf`). -/
def leDist (l : ℚ) (d : Option ℚ) : Bool :=
  match d with
  | none => true
  | some x => decide (l ≤ x)

/-- `subDist d l` is the Python subtraction `d - l` (`+Inf` minus a finite
length stays `+Inf`). -/
def subDist (d : Option ℚ) (l : ℚ) : Option ℚ :=
  match d with
  | none => none
  | some x => some (x - l)

/-- Modelled from the spec (section 4.1, Partial transfer matrix): a leaf
element queried up to an internal distance returns itself when its length
fits; `Space` subdivides as `Space(d=upTo)` (quoted in the
`MatrixGroup.transferMatrix` docstring); any other element leaves the
partial case to its own physical model, which the spec does not constrain
further, so it is modelled as returning the full element. -/
def Matrix.transferMatrix (m : Matrix) (upTo : Option ℚ) : Matrix :=
  if leDist m.L upTo then m
  else
    match upTo with
    | none => m
    | some d => if m.isSpace then Space d 1 else m

/-- Modelled from the spec (section 4.1, Propagation): propagate a ray
through one element.  The outgoing height and angle are the 2x2 product;
the outgoing height is tested against half the aperture diameter (when
finite), and a blocked ray stays blocked through every later element. -/
def Matrix.mul_ray (m : Matrix) (r : Ray) : Ray :=
  let yOut := m.A * r.y + m.B * r.theta
  let thetaOut := m.C * r.y + m.D * r.theta
  let hitAperture :=
    match m.apertureDiameter with
    | none => false
    | some dia => decide (dia / 2 < |yOut|)
  ⟨yOut, thetaOut, r.isBlocked || hitAperture, r.z + m.L, 0⟩

/-- Modelled from the spec: swap the front/back roles of an element,
exchanging its refractive indices and vertex offsets. -/
def Matrix.flipOrientation (m : Matrix) : Matrix :=
  ⟨m.A, m.B, m.C, m.D, m.L, m.backIndex, m.frontIndex,
   m.backVertex, m.frontVertex, m.apertureDiameter, m.isSpace⟩

/-- The `MatrixGroup` state: the ordered element list, the aggregate fields
`A,B,C,D,L,frontVertex,backVertex` that `append` recomputes (lines 84-92),
the single-entry trace cache (`_lastRayToBeTraced` as the identity of the
last traced ray and `_lastRayTrace` as the stored trace, `none`/`[]` when
empty), and the shared `iteration` counter of the iterator protocol. -/
structure MatrixGroup where
  elements : List Matrix
  A : ℚ
  B : ℚ
  C : ℚ
  D : ℚ
  L : ℚ
  frontVertex : Option ℚ
  backVertex : Option ℚ
  lastRayToBeTraced : Option Nat
  lastRayTrace : List Ray
  iteration : Nat
deriving DecidableEq

/-- `MatrixGroup()` freshly constructed with no elements: identity
aggregate from `Matrix.__init__(1, 0, 0, 1)`, empty cache, counter zero. -/
def MatrixGroup.empty : MatrixGroup :=
  ⟨[], 1, 0, 0, 1, 0, none, none, none, [], 0⟩

/-- The loop of `MatrixGroup.transferMatrix` (lines 137-147): walk the
elements in order with the remaining distance, multiplying an element in
fully while its length fits, otherwise folding that element's own partial
transfer matrix and stopping. -/
def transferMatrixAux : List Matrix → Matrix → Option ℚ → Matrix
  | [], acc, _ => acc
  | e :: rest, acc, distance =>
    if leDist e.L distance then
      transferMatrixAux rest (Matrix.mul e acc) (subDist distance e.L)
    else
      Matrix.mul (e.transferMatrix distance) acc

/-- `MatrixGroup.transferMatrix(upTo)`; `upTo = none` is the `+Inf`
default. -/
def MatrixGroup.transferMatrix (g : MatrixGroup) (upTo : Option ℚ) : Matrix :=
  transferMatrixAux g.elements idMatrix upTo

/-- Result of one `append` call: the (possibly mutated) group, the raised
error if any, and whether the mismatched-`Space` warning was emitted. -/
structure ARes where
  g : MatrixGroup
  err : Option Err
  warned : Bool
deriving DecidableEq

/-- Lines 84-92 of `append`: push the element onto the list and overwrite
the aggregate fields with the full recomputed transfer matrix. -/
def MatrixGroup.recompute (g : MatrixGroup) (es : List Matrix) : MatrixGroup :=
  let t := transferMatrixAux es idMatrix none
  ⟨es, t.A, t.B, t.C, t.D, t.L, t.frontVertex, t.backVertex,
   g.lastRayToBeTraced, g.lastRayTrace, g.iteration⟩

/-- The accepting path of `append`: list extension plus aggregate
recomputation. -/
def MatrixGroup.commitAppend (g : MatrixGroup) (m : Matrix) (w : Bool) : ARes :=
  ⟨g.recompute (g.elements ++ [m]), none, w⟩

/-- `MatrixGroup.append` (lines 68-92) applied to an element that already
passed the `isinstance(matrix, Matrix)` test: on a refractive-index
mismatch with the last element, a `Space` silently adopts the neighbour's
index on both faces with a warning, and any other element raises a
`ValueError` before the list or the aggregate is touched. -/
def MatrixGroup.appendM (g : MatrixGroup) (m : Matrix) : ARes :=
  match g.elements.getLast? with
  | none => g.commitAppend m false
  | some lastElement =>
    if lastElement.backIndex = m.frontIndex then
      g.commitAppend m false
    else if m.isSpace then
      g.commitAppend
        ⟨m.A, m.B, m.C, m.D, m.L, lastElement.backIndex, lastElement.backIndex,
         m.frontVertex, m.backVertex, m.apertureDiameter, m.isSpace⟩ true
    else ⟨g, some Err.valueErr, false⟩

/-- The dynamic argument of a public `append` call: either an actual
element, or any non-`Matrix` Python value, which `append` rejects with a
`TypeError` on line 70 before touching any state. -/
inductive AppendArg where
  | mat : Matrix → AppendArg
  | nonMatrix : AppendArg

/-- `MatrixGroup.append` including the `isinstance` type check. -/
def MatrixGroup.append (g : MatrixGroup) (a : AppendArg) : ARes :=
  match a with
  | AppendArg.nonMatrix => ⟨g, some Err.typeErr, false⟩
  | AppendArg.mat m => g.appendM m

/-- Appending a list of elements one by one, stopping at the first raised
error with the state mutated so far (a Python exception aborts the loop
but the partially rebuilt object survives). -/
def MatrixGroup.replayAppend (g : MatrixGroup) : List Matrix → MatrixGroup × Option Err
  | [] => (g, none)
  | m :: rest =>
    match g.appendM m with
    | ⟨g', none, _⟩ => g'.replayAppend rest
    | ⟨g', some e, _⟩ => (g', some e)

/-- `MatrixGroup(elements)` construction: start empty and `append` each
element in order. -/
def MatrixGroup.ofElements (ms : List Matrix) : MatrixGroup × Option Err :=
  MatrixGroup.empty.replayAppend ms

/-- The snapshot-and-replay loop shared by the structural edits (lines
386-394, 412-419, 433-441, 469-476): for the `i`-th snapshot element the
edit appends the elements `f i e` (the element itself, a replacement, a
pad, or nothing), and a raised error aborts the replay. -/
def MatrixGroup.editLoop (f : Nat → Matrix → List Matrix) :
    Nat → List Matrix → MatrixGroup → MatrixGroup × Option Err
  | _, [], g => (g, none)
  | i, e :: rest, g =>
    match g.replayAppend (f i e) with
    | (g', none) => MatrixGroup.editLoop f (i + 1) rest g'
    | (g', some err) => (g', some err)

/-- The `index += maxIndex` adjustment of negative indices used by every
structural edit. -/
def normIdx (index : Int) (maxIndex : Nat) : Int :=
  if index < 0 then index + maxIndex else index

/-- What `removeElement` replays for the `i`-th snapshot element: the
removed slot is padded with `Space(length)` when `pad` is set and the
removed length is positive, every other element is replayed unchanged. -/
def fRemove (idx : Int) (pad : Bool) (i : Nat) (e : Matrix) : List Matrix :=
  if (i : Int) = idx then
    (if 0 < e.L ∧ pad = true then [Space e.L 1] else [])
  else [e]

/-- `MatrixGroup.removeElement` (lines 378-394). -/
def MatrixGroup.removeElement (g : MatrixGroup) (index : Int) (pad : Bool) :
    MatrixGroup × Option Err :=
  let maxIndex := g.elements.length
  let idx := normIdx index maxIndex
  if (maxIndex : Int) ≤ idx ∨ idx < 0 then
    (g, some (Err.indexErr idx ((maxIndex : Int) - 1)))
  else
    MatrixGroup.editLoop (fRemove idx pad) 0 g.elements
      ⟨[], g.A, g.B, g.C, g.D, g.L, g.frontVertex, g.backVertex,
       g.lastRayToBeTraced, g.lastRayTrace, g.iteration⟩

/-- What `insertElement` replays for the `i`-th snapshot element: at the
insertion slot the new elements are appended first, then the snapshot
element. -/
def fInsert (idx : Int) (newElems : List Matrix) (i : Nat) (e : Matrix) :
    List Matrix :=
  if (i : Int) = idx then newElems ++ [e] else [e]

/-- `MatrixGroup.insertElement` (lines 396-419).  The Python code first
wraps the argument in `MatrixGroup(...)` (a single element becomes a
one-element group); the argument here is the element list handed to that
wrapper, and a mismatch inside the wrapper raises before `g` is touched. -/
def MatrixGroup.insertElement (g : MatrixGroup) (index : Int)
    (arg : List Matrix) : MatrixGroup × Option Err :=
  match MatrixGroup.ofElements arg with
  | (_, some e) => (g, some e)
  | (wrapped, none) =>
    let newElems := wrapped.elements
    let maxIndex := g.elements.length
    let idx := normIdx index maxIndex
    if (maxIndex : Int) < idx ∨ idx < 0 then
      (g, some (Err.indexErr idx (maxIndex : Int)))
    else if idx = (maxIndex : Int) then
      g.replayAppend newElems
    else
      MatrixGroup.editLoop (fInsert idx newElems) 0 g.elements
        ⟨[], g.A, g.B, g.C, g.D, g.L, g.frontVertex, g.backVertex,
         g.lastRayToBeTraced, g.lastRayTrace, g.iteration⟩

/-- What `replaceSingle` replays for the `i`-th snapshot element. -/
def fReplaceOne (idx : Int) (newElems : List Matrix) (i : Nat) (e : Matrix) :
    List Matrix :=
  if (i : Int) = idx then newElems else [e]

/-- `MatrixGroup.replaceSingle` (lines 421-441).  The physical-length
mismatch warning of line 437 is not part of any claim and is not
tracked. -/
def MatrixGroup.replaceSingle (g : MatrixGroup) (index : Int)
    (arg : List Matrix) : MatrixGroup × Option Err :=
  match MatrixGroup.ofElements arg with
  | (_, some e) => (g, some e)
  | (wrapped, none) =>
    let newElems := wrapped.elements
    let maxIndex := g.elements.length
    let idx := normIdx index maxIndex
    if (maxIndex : Int) ≤ idx ∨ idx < 0 then
      (g, some (Err.indexErr idx ((maxIndex : Int) - 1)))
    else
      MatrixGroup.editLoop (fReplaceOne idx newElems) 0 g.elements
        ⟨[], g.A, g.B, g.C, g.D, g.L, g.frontVertex, g.backVertex,
         g.lastRayToBeTraced, g.lastRayTrace, g.iteration⟩

/-- What `replaceChunk` replays for the `i`-th snapshot element: elements
outside the chunk are kept, the whole chunk is dropped, and the new
elements enter at the start index. -/
def fChunk (s t : Int) (newElems : List Matrix) (i : Nat) (e : Matrix) :
    List Matrix :=
  if (i : Int) < s ∨ t < (i : Int) then [e]
  else if (i : Int) = s then newElems
  else []

/-- `MatrixGroup.replaceChunk` (lines 443-476): both indices are bounds
checked, equal indices are rejected, a reversed range is normalised, and
the replay keeps everything outside the inclusive range.  The
physical-length warning of line 466 is not tracked. -/
def MatrixGroup.replaceChunk (g : MatrixGroup) (startIndex stopIndex : Int)
    (arg : List Matrix) : MatrixGroup × Option Err :=
  match MatrixGroup.ofElements arg with
  | (_, some e) => (g, some e)
  | (wrapped, none) =>
    let newElems := wrapped.elements
    let maxIndex := g.elements.length
    let s0 := normIdx startIndex maxIndex
    let t0 := normIdx stopIndex maxIndex
    if (maxIndex : Int) ≤ s0 ∨ s0 < 0 then
      (g, some (Err.indexErr s0 ((maxIndex : Int) - 1)))
    else if (maxIndex : Int) ≤ t0 ∨ t0 < 0 then
      (g, some (Err.indexErr t0 ((maxIndex : Int) - 1)))
    else if s0 = t0 then (g, some Err.indexErrSame)
    else
      MatrixGroup.editLoop (fChunk (min s0 t0) (max s0 t0) newElems) 0
        g.elements
        ⟨[], g.A, g.B, g.C, g.D, g.L, g.frontVertex, g.backVertex,
         g.lastRayToBeTraced, g.lastRayTrace, g.iteration⟩

/-- `MatrixGroup.flipOrientation` (lines 293-305): reverse the list, flip
every element individually, and rebuild through fresh `append` calls. -/
def MatrixGroup.flipOrientation (g : MatrixGroup) : MatrixGroup × Option Err :=
  MatrixGroup.replayAppend
    ⟨[], g.A, g.B, g.C, g.D, g.L, g.frontVertex, g.backVertex,
     g.lastRayToBeTraced, g.lastRayTrace, g.iteration⟩
    (g.elements.reverse.map Matrix.flipOrientation)

/-- The dynamic argument of a `trace` call: a `Ray`, or any value that is
neither a `Ray` nor a `GaussianBeam`, which `trace` rejects with a
`TypeError` on line 254.  Gaussian beams are not exercised by any claim
and are not modelled. -/
inductive TraceArg where
  | ray : Ray → TraceArg
  | nonRay : TraceArg

/-- The loop of `trace` (lines 258-261): each leaf element propagates the
ray and hands the resulting state to the next element. -/
def traceLoop : List Matrix → Ray → List Ray
  | [], _ => []
  | e :: rest, r =>
    let rNext := e.mul_ray r
    rNext :: traceLoop rest rNext

/-- `MatrixGroup.trace` (lines 253-267): the input is type checked, the
single-entry cache keyed on the identity of the last traced ray is
consulted, and a computed trace (the input ray followed by the state after
each element) is stored in the cache.  The result carries the returned
list, the resulting group state, and the raised error if any. -/
def MatrixGroup.trace (g : MatrixGroup) (arg : TraceArg) :
    List Ray × MatrixGroup × Option Err :=
  match arg with
  | TraceArg.nonRay => ([], g, some Err.typeErr)
  | TraceArg.ray r =>
    if g.lastRayToBeTraced = some r.rid then
      (g.lastRayTrace, g, none)
    else
      let t := r :: traceLoop g.elements r
      (t, ⟨g.elements, g.A, g.B, g.C, g.D, g.L, g.frontVertex, g.backVertex,
           some r.rid, t, g.iteration⟩, none)

/-- `MatrixGroup.__iter__` (lines 356-358): reset the shared position
counter and return the very same sequence object. -/
def MatrixGroup.iterSelf (g : MatrixGroup) : MatrixGroup :=
  ⟨g.elements, g.A, g.B, g.C, g.D, g.L, g.frontVertex, g.backVertex,
   g.lastRayToBeTraced, g.lastRayTrace, 0⟩

/-- `MatrixGroup.__next__` (lines 360-367): yield the element at the
shared counter and advance it; `none` models `StopIteration` (the
`elements is None` guard of line 361 is unreachable in this model, where
the element list always exists). -/
def MatrixGroup.nextElement (g : MatrixGroup) : Option Matrix × MatrixGroup :=
  if h : g.iteration < g.elements.length then
    (some (g.elements.get ⟨g.iteration, h⟩),
     ⟨g.elements, g.A, g.B, g.C, g.D, g.L, g.frontVertex, g.backVertex,
      g.lastRayToBeTraced, g.lastRayTrace, g.iteration + 1⟩)
  else (none, g)

/-- One structural mutation of a sequence, for quantifying over "every
structural edit". -/
inductive EditOp where
  | app : AppendArg → EditOp
  | remove : Int → Bool → EditOp
  | insert : Int → List Matrix → EditOp
  | replaceOne : Int → List Matrix → EditOp
  | replaceRange : Int → Int → List Matrix → EditOp
  | flip : EditOp

/-- The state a sequence is left in by a structural mutation (including a
mutation aborted by an exception). -/
def MatrixGroup.applyEdit (g : MatrixGroup) : EditOp → MatrixGroup
  | EditOp.app a => (g.append a).g
  | EditOp.remove i pad => (g.removeElement i pad).1
  | EditOp.insert i ms => (g.insertElement i ms).1
  | EditOp.replaceOne i ms => (g.replaceSingle i ms).1
  | EditOp.replaceRange s t ms => (g.replaceChunk s t ms).1
  | EditOp.flip => g.flipOrientation.1

/-- The sum of the physical lengths of a list of elements. -/
def sumL : List Matrix → ℚ
  | [] => 0
  | e :: rest => e.L + sumL rest

/-- The total physical length of the sequence, read off the full transfer
matrix as in the specification's test (`transferMatrix()` then `L`). -/
def MatrixGroup.totalL (g : MatrixGroup) : ℚ :=
  (g.transferMatrix none).L

/-- The aggregate fields agree with the transfer matrix folded over the
full current element list (the consistency invariant of the spec). -/
def aggConsistent (g : MatrixGroup) : Prop :=
  g.A = (g.transferMatrix none).A ∧ g.B = (g.transferMatrix none).B ∧
  g.C = (g.transferMatrix none).C ∧ g.D = (g.transferMatrix none).D ∧
  g.L = (g.transferMatrix none).L ∧
  g.frontVertex = (g.transferMatrix none).frontVertex ∧
  g.backVertex = (g.transferMatrix none).backVertex

/-- Pairwise refractive-index continuity along a list of elements: each
element's back index equals the next element's front index. -/
def chainCont : List Matrix → Prop
  | [] => True
  | [_] => True
  | a :: b :: rest => a.backIndex = b.frontIndex ∧ chainCont (b :: rest)

/-- The list of elements an edit loop appends overall: the concatenation
of the per-step contributions `f i e`. -/
def flatF (f : Nat → Matrix → List Matrix) : Nat → List Matrix → List Matrix
  | _, [] => []
  | i, e :: rest => f i e ++ flatF f (i + 1) rest

theorem recompute_elements (g : MatrixGroup) (es : List Matrix) :
    (g.recompute es).elements = es := rfl

theorem recompute_recompute (g : MatrixGroup) (es es' : List Matrix) :
    (g.recompute es).recompute es' = g.recompute es' := rfl

theorem recompute_cache (g : MatrixGroup) (es : List Matrix) :
    (g.recompute es).lastRayToBeTraced = g.lastRayToBeTraced ∧
    (g.recompute es).lastRayTrace = g.lastRayTrace ∧
    (g.recompute es).iteration = g.iteration :=
  ⟨rfl, rfl, rfl⟩

theorem aggConsistent_recompute (g : MatrixGroup) (es : List Matrix) :
    aggConsistent (g.recompute es) :=
  ⟨rfl, rfl, rfl, rfl, rfl, rfl, rfl⟩

theorem appendM_getLast_none (g : MatrixGroup) (m : Matrix)
    (h : g.elements.getLast? = none) :
    g.appendM m = g.commitAppend m false := by
  unfold MatrixGroup.appendM
  rw [h]

theorem appendM_match_index (g : MatrixGroup) (m lst : Matrix)
    (h : g.elements.getLast? = some lst)
    (heq : lst.backIndex = m.frontIndex) :
    g.appendM m = g.commitAppend m false := by
  unfold MatrixGroup.appendM
  rw [h]
  simp [heq]

theorem appendM_space_fix (g : MatrixGroup) (m lst : Matrix)
    (h : g.elements.getLast? = some lst)
    (hne : lst.backIndex ≠ m.frontIndex) (hsp : m.isSpace = true) :
    g.appendM m =
      g.commitAppend
        ⟨m.A, m.B, m.C, m.D, m.L, lst.backIndex, lst.backIndex,
         m.frontVertex, m.backVertex, m.apertureDiameter, m.isSpace⟩ true := by
  unfold MatrixGroup.appendM
  rw [h]
  simp [hne, hsp]

theorem appendM_mismatch (g : MatrixGroup) (m lst : Matrix)
    (h : g.elements.getLast? = some lst)
    (hne : lst.backIndex ≠ m.frontIndex) (hsp : m.isSpace = false) :
    g.appendM m = ⟨g, some Err.valueErr, false⟩ := by
  unfold MatrixGroup.appendM
  rw [h]
  simp [hne, hsp]

theorem appendM_cases (g : MatrixGroup) (m : Matrix) :
    (∃ m' w, m'.L = m.L ∧
       g.appendM m = ⟨g.recompute (g.elements ++ [m']), none, w⟩) ∨
    g.appendM m = ⟨g, some Err.valueErr, false⟩ := by
  unfold MatrixGroup.appendM
  cases h : g.elements.getLast? with
  | none => exact Or.inl ⟨m, false, rfl, rfl⟩
  | some lst =>
    by_cases heq : lst.backIndex = m.frontIndex
    · simp only [heq, if_true]
      exact Or.inl ⟨m, false, rfl, rfl⟩
    · by_cases hsp : m.isSpace = true
      · simp only [heq, if_false, hsp, if_true]
        exact Or.inl
          ⟨⟨m.A, m.B, m.C, m.D, m.L, lst.backIndex, lst.backIndex,
            m.frontVertex, m.backVertex, m.apertureDiameter, true⟩,
           true, rfl, rfl⟩
      · simp only [heq, if_false, hsp]
        exact Or.inr rfl

theorem appendM_cache (g : MatrixGroup) (m : Matrix) :
    (g.appendM m).g.lastRayToBeTraced = g.lastRayToBeTraced ∧
    (g.appendM m).g.lastRayTrace = g.lastRayTrace ∧
    (g.appendM m).g.iteration = g.iteration := by
  rcases appendM_cases g m with ⟨m', w, _, h⟩ | h <;> rw [h] <;> exact ⟨rfl, rfl, rfl⟩

theorem appendM_err_or (g : MatrixGroup) (m : Matrix) :
    (g.appendM m).err = none ∨ (g.appendM m).err = some Err.valueErr := by
  rcases appendM_cases g m with ⟨m', w, _, h⟩ | h <;> rw [h]
  · exact Or.inl rfl
  · exact Or.inr rfl

theorem appendM_success (g : MatrixGroup) (m : Matrix)
    (h : (g.appendM m).err = none) :
    ∃ m', m'.L = m.L ∧ (g.appendM m).g = g.recompute (g.elements ++ [m']) := by
  rcases appendM_cases g m with ⟨m', w, hL, hm⟩ | hm
  · exact ⟨m', hL, by rw [hm]⟩
  · rw [hm] at h
    exact absurd h (by simp)

theorem appendM_fail (g : MatrixGroup) (m : Matrix) (e : Err)
    (h : (g.appendM m).err = some e) : (g.appendM m).g = g := by
  rcases appendM_cases g m with ⟨m', w, _, hm⟩ | hm
  · rw [hm] at h
    exact absurd h (by simp)
  · rw [hm]

theorem replayAppend_nil (g : MatrixGroup) : g.replayAppend [] = (g, none) := rfl

theorem replayAppend_cons (g : MatrixGroup) (m : Matrix) (ms : List Matrix) :
    g.replayAppend (m :: ms) =
      match g.appendM m with
      | ⟨g', none, _⟩ => g'.replayAppend ms
      | ⟨g', some e, _⟩ => (g', some e) := rfl

theorem replayAppend_cons_ok (g : MatrixGroup) (m : Matrix) (ms : List Matrix)
    (h : (g.appendM m).err = none) :
    g.replayAppend (m :: ms) = (g.appendM m).g.replayAppend ms := by
  rw [replayAppend_cons]
  rcases hr : g.appendM m with ⟨g', e', w⟩
  rw [hr] at h
  simp only at h
  subst h
  rfl

theorem replayAppend_cons_err (g : MatrixGroup) (m : Matrix) (ms : List Matrix)
    (e : Err) (h : (g.appendM m).err = some e) :
    g.replayAppend (m :: ms) = ((g.appendM m).g, some e) := by
  rw [replayAppend_cons]
  rcases hr : g.appendM m with ⟨g', e', w⟩
  rw [hr] at h
  simp only at h
  subst h
  rfl

theorem replayAppend_cache : ∀ (ms : List Matrix) (g : MatrixGroup),
    (g.replayAppend ms).1.lastRayToBeTraced = g.lastRayToBeTraced ∧
    (g.replayAppend ms).1.lastRayTrace = g.lastRayTrace ∧
    (g.replayAppend ms).1.iteration = g.iteration := by
  intro ms
  induction ms with
  | nil => intro g; exact ⟨rfl, rfl, rfl⟩
  | cons m rest ih =>
    intro g
    rcases appendM_err_or g m with h | h
    · rw [replayAppend_cons_ok g m rest h]
      rcases ih (g.appendM m).g with ⟨h1, h2, h3⟩
      rcases appendM_cache g m with ⟨c1, c2, c3⟩
      exact ⟨h1.trans c1, h2.trans c2, h3.trans c3⟩
    · rw [replayAppend_cons_err g m rest Err.valueErr h]
      rcases appendM_cache g m with ⟨c1, c2, c3⟩
      exact ⟨c1, c2, c3⟩

theorem replayAppend_err_or : ∀ (ms : List Matrix) (g : MatrixGroup),
    (g.replayAppend ms).2 = none ∨ (g.replayAppend ms).2 = some Err.valueErr := by
  intro ms
  induction ms with
  | nil => intro g; exact Or.inl rfl
  | cons m rest ih =>
    intro g
    rcases appendM_err_or g m with h | h
    · rw [replayAppend_cons_ok g m rest h]
      exact ih (g.appendM m).g
    · rw [replayAppend_cons_err g m rest Err.valueErr h]
      exact Or.inr rfl

theorem replayAppend_inv : ∀ (ms : List Matrix) (g : MatrixGroup),
    (g.elements = [] ∨ aggConsistent g) →
    ((g.replayAppend ms).1.elements = [] ∨ aggConsistent (g.replayAppend ms).1) := by
  intro ms
  induction ms with
  | nil => intro g h; exact h
  | cons m rest ih =>
    intro g h
    rcases appendM_cases g m with ⟨m', w, _, hm⟩ | hm
    · have herr : (g.appendM m).err = none := by rw [hm]
      rw [replayAppend_cons_ok g m rest herr]
      refine ih (g.appendM m).g (Or.inr ?_)
      rw [hm]
      exact aggConsistent_recompute g (g.elements ++ [m'])
    · have herr : (g.appendM m).err = some Err.valueErr := by rw [hm]
      rw [replayAppend_cons_err g m rest Err.valueErr herr]
      have : (g.appendM m).g = g := by rw [hm]
      rw [this]
      exact h

theorem sumL_append : ∀ (xs ys : List Matrix), sumL (xs ++ ys) = sumL xs + sumL ys := by
  intro xs ys
  induction xs with
  | nil => simp [sumL]
  | cons e rest ih => simp [sumL, ih, add_assoc]

theorem replayAppend_sumL : ∀ (ms : List Matrix) (g : MatrixGroup),
    (g.replayAppend ms).2 = none →
    sumL (g.replayAppend ms).1.elements = sumL g.elements + sumL ms := by
  intro ms
  induction ms with
  | nil => intro g _; simp [replayAppend_nil, sumL]
  | cons m rest ih =>
    intro g h
    rcases appendM_err_or g m with he | he
    · rw [replayAppend_cons_ok g m rest he] at h ⊢
      rcases appendM_success g m he with ⟨m', hL, hg⟩
      rw [ih (g.appendM m).g h, hg, recompute_elements, sumL_append]
      simp [sumL, hL, add_assoc]
    · rw [replayAppend_cons_err g m rest Err.valueErr he] at h
      exact absurd h (by simp)

theorem chainCont_junction : ∀ (xs : List Matrix) (lst m : Matrix)
    (rest : List Matrix), chainCont (xs ++ m :: rest) →
    xs.getLast? = some lst → lst.backIndex = m.frontIndex := by
  intro xs
  induction xs with
  | nil => intro lst m rest _ hl; exact absurd hl (by simp)
  | cons a xs' ih =>
    intro lst m rest hc hl
    cases xs' with
    | nil =>
      simp at hl
      subst hl
      exact hc.1
    | cons b xs'' =>
      rw [List.getLast?_cons_cons] at hl
      exact ih lst m rest hc.2 hl

theorem replayAppend_exact : ∀ (ms : List Matrix) (g : MatrixGroup),
    chainCont (g.elements ++ ms) →
    (g.replayAppend ms).2 = none ∧
    (ms = [] → (g.replayAppend ms).1 = g) ∧
    (ms ≠ [] → (g.replayAppend ms).1 = g.recompute (g.elements ++ ms)) := by
  intro ms
  induction ms with
  | nil => intro g _; exact ⟨rfl, fun _ => rfl, fun h => absurd rfl h⟩
  | cons m rest ih =>
    intro g hc
    have hstep : g.appendM m = g.commitAppend m false := by
      cases hl : g.elements.getLast? with
      | none => exact appendM_getLast_none g m hl
      | some lst =>
        exact appendM_match_index g m lst hl (chainCont_junction _ lst m rest hc hl)
    have herr : (g.appendM m).err = none := by rw [hstep]; rfl
    have hg : (g.appendM m).g = g.recompute (g.elements ++ [m]) := by rw [hstep]; rfl
    rw [replayAppend_cons_ok g m rest herr, hg]
    have hassoc : (g.elements ++ [m]) ++ rest = g.elements ++ m :: rest := by
      rw [List.append_assoc]
      rfl
    have hc' : chainCont ((g.recompute (g.elements ++ [m])).elements ++ rest) := by
      rw [recompute_elements, hassoc]
      exact hc
    rcases ih (g.recompute (g.elements ++ [m])) hc' with ⟨h1, h2, h3⟩
    refine ⟨h1, fun hcontra => absurd hcontra (by simp), fun _ => ?_⟩
    cases rest with
    | nil =>
      rw [h2 rfl]
    | cons b rest' =>
      rw [h3 (by simp), recompute_elements, recompute_recompute, hassoc]

theorem replayAppend_append (ys : List Matrix) : ∀ (xs : List Matrix) (g : MatrixGroup),
    g.replayAppend (xs ++ ys) =
      match g.replayAppend xs with
      | (g', none) => g'.replayAppend ys
      | (g', some e) => (g', some e) := by
  intro xs
  induction xs with
  | nil => intro g; rfl
  | cons m rest ih =>
    intro g
    rcases appendM_err_or g m with h | h
    · rw [List.cons_append, replayAppend_cons_ok g m (rest ++ ys) h, ih,
        replayAppend_cons_ok g m rest h]
    · rw [List.cons_append, replayAppend_cons_err g m (rest ++ ys) Err.valueErr h,
        replayAppend_cons_err g m rest Err.valueErr h]

theorem editLoop_cons (f : Nat → Matrix → List Matrix) (i : Nat) (e : Matrix)
    (rest : List Matrix) (g : MatrixGroup) :
    MatrixGroup.editLoop f i (e :: rest) g =
      match g.replayAppend (f i e) with
      | (g', none) => MatrixGroup.editLoop f (i + 1) rest g'
      | (g', some err) => (g', some err) := rfl

theorem flatF_cons (f : Nat → Matrix → List Matrix) (i : Nat) (e : Matrix)
    (rest : List Matrix) :
    flatF f i (e :: rest) = f i e ++ flatF f (i + 1) rest := rfl

theorem editLoop_eq_replay (f : Nat → Matrix → List Matrix) :
    ∀ (ms : List Matrix) (i : Nat) (g : MatrixGroup),
    MatrixGroup.editLoop f i ms g = g.replayAppend (flatF f i ms) := by
  intro ms
  induction ms with
  | nil => intro i g; rfl
  | cons e rest ih =>
    intro i g
    rw [editLoop_cons, flatF_cons, replayAppend_append]
    rcases h : g.replayAppend (f i e) with ⟨g', e?⟩
    cases e? with
    | none => exact ih (i + 1) g'
    | some err => rfl

theorem flatF_const (f : Nat → Matrix → List Matrix) :
    ∀ (ms : List Matrix) (k : Nat), (∀ i e, k ≤ i → f i e = [e]) →
    flatF f k ms = ms := by
  intro ms
  induction ms with
  | nil => intro k _; rfl
  | cons e rest ih =>
    intro k h
    rw [flatF_cons, h k e (le_refl k), ih (k + 1) (fun i e hi => h i e (by omega))]
    rfl

theorem flatF_shift (f : Nat → Matrix → List Matrix) :
    ∀ (ms : List Matrix) (k : Nat),
    flatF f (k + 1) ms = flatF (fun i e => f (i + 1) e) k ms := by
  intro ms
  induction ms with
  | nil => intro k; rfl
  | cons e rest ih =>
    intro k
    rw [flatF_cons, flatF_cons, ih (k + 1)]

theorem flatF_fRemove : ∀ (temp : List Matrix) (j : Nat) (pad : Bool),
    j < temp.length →
    flatF (fRemove (j : Int) pad) 0 temp =
      temp.take j ++
        (if 0 < (temp.getD j idMatrix).L ∧ pad = true
         then [Space (temp.getD j idMatrix).L 1] else []) ++
      temp.drop (j + 1) := by
  intro temp
  induction temp with
  | nil => intro j pad hj; exact absurd hj (by simp)
  | cons e rest ih =>
    intro j pad hj
    cases j with
    | zero =>
      rw [flatF_cons]
      have h1 : fRemove ((0 : Nat) : Int) pad 0 e =
          (if 0 < e.L ∧ pad = true then [Space e.L 1] else []) := by
        unfold fRemove
        rw [if_pos rfl]
      have h2 : flatF (fRemove ((0 : Nat) : Int) pad) 1 rest = rest := by
        refine flatF_const _ rest 1 (fun i x hi => ?_)
        have hne : ¬((i : Int) = ((0 : Nat) : Int)) := by omega
        unfold fRemove
        rw [if_neg hne]
      rw [h1, h2]
      simp
    | succ j' =>
      rw [flatF_cons]
      have h1 : fRemove ((j' + 1 : Nat) : Int) pad 0 e = [e] := by
        have hne : ¬(((0 : Nat) : Int) = ((j' + 1 : Nat) : Int)) := by omega
        unfold fRemove
        rw [if_neg hne]
      have h2 : flatF (fRemove ((j' + 1 : Nat) : Int) pad) 1 rest =
          flatF (fRemove ((j' : Nat) : Int) pad) 0 rest := by
        rw [flatF_shift]
        have : (fun i e => fRemove ((j' + 1 : Nat) : Int) pad (i + 1) e) =
            fRemove ((j' : Nat) : Int) pad := by
          funext i x
          have hiff : ((i + 1 : Nat) : Int) = ((j' + 1 : Nat) : Int) ↔
              ((i : Nat) : Int) = ((j' : Nat) : Int) := by omega
          simp only [fRemove]
          rw [if_congr hiff rfl rfl]
        rw [this]
      rw [h1, h2, ih j' pad (by simpa using hj)]
      simp [List.getD_cons_succ]

theorem flatF_fInsert : ∀ (temp : List Matrix) (j : Nat) (newEs : List Matrix),
    j < temp.length →
    flatF (fInsert (j : Int) newEs) 0 temp =
      temp.take j ++ newEs ++ temp.drop j := by
  intro temp
  induction temp with
  | nil => intro j newEs hj; exact absurd hj (by simp)
  | cons e rest ih =>
    intro j newEs hj
    cases j with
    | zero =>
      rw [flatF_cons]
      have h1 : fInsert ((0 : Nat) : Int) newEs 0 e = newEs ++ [e] := by
        unfold fInsert
        rw [if_pos rfl]
      have h2 : flatF (fInsert ((0 : Nat) : Int) newEs) 1 rest = rest := by
        refine flatF_const _ rest 1 (fun i x hi => ?_)
        have hne : ¬((i : Int) = ((0 : Nat) : Int)) := by omega
        unfold fInsert
        rw [if_neg hne]
      rw [h1, h2]
      simp
    | succ j' =>
      rw [flatF_cons]
      have h1 : fInsert ((j' + 1 : Nat) : Int) newEs 0 e = [e] := by
        have hne : ¬(((0 : Nat) : Int) = ((j' + 1 : Nat) : Int)) := by omega
        unfold fInsert
        rw [if_neg hne]
      have h2 : flatF (fInsert ((j' + 1 : Nat) : Int) newEs) 1 rest =
          flatF (fInsert ((j' : Nat) : Int) newEs) 0 rest := by
        rw [flatF_shift]
        have : (fun i e => fInsert ((j' + 1 : Nat) : Int) newEs (i + 1) e) =
            fInsert ((j' : Nat) : Int) newEs := by
          funext i x
          have hiff : ((i + 1 : Nat) : Int) = ((j' + 1 : Nat) : Int) ↔
              ((i : Nat) : Int) = ((j' : Nat) : Int) := by omega
          simp only [fInsert]
          rw [if_congr hiff rfl rfl]
        rw [this]
      rw [h1, h2, ih j' newEs (by simpa using hj)]
      simp

theorem transferMatrixAux_none_L : ∀ (es : List Matrix) (acc : Matrix),
    (transferMatrixAux es acc none).L = acc.L + sumL es := by
  intro es
  induction es with
  | nil => intro acc; simp [transferMatrixAux, sumL]
  | cons e rest ih =>
    intro acc
    have hle : leDist e.L none = true := rfl
    have hsub : subDist none e.L = none := rfl
    show (transferMatrixAux (e :: rest) acc none).L = acc.L + sumL (e :: rest)
    unfold transferMatrixAux
    rw [hle, if_pos rfl, hsub, ih (Matrix.mul e acc)]
    show e.L + acc.L + sumL rest = acc.L + (e.L + sumL rest)
    ring

theorem totalL_eq_sumL (g : MatrixGroup) : g.totalL = sumL g.elements := by
  show (transferMatrixAux g.elements idMatrix none).L = sumL g.elements
  rw [transferMatrixAux_none_L]
  show (0 : ℚ) + sumL g.elements = sumL g.elements
  ring

theorem transferMatrixAux_cons (e : Matrix) (rest : List Matrix) (acc : Matrix)
    (dist : Option ℚ) :
    transferMatrixAux (e :: rest) acc dist =
      if leDist e.L dist then
        transferMatrixAux rest (Matrix.mul e acc) (subDist dist e.L)
      else Matrix.mul (e.transferMatrix dist) acc := rfl

theorem transferMatrixAux_split : ∀ (es : List Matrix) (acc : Matrix) (d : ℚ) (k : Nat),
    k ≤ es.length →
    (∀ j, j < k → sumL (es.take (j + 1)) ≤ d) →
    (k < es.length → d < sumL (es.take (k + 1))) →
    ((k = es.length →
        transferMatrixAux es acc (some d) = transferMatrixAux es acc none) ∧
     (k < es.length →
        transferMatrixAux es acc (some d) =
          Matrix.mul ((es.getD k idMatrix).transferMatrix (some (d - sumL (es.take k))))
            (transferMatrixAux (es.take k) acc none))) := by
  intro es
  induction es with
  | nil =>
    intro acc d k hk _ _
    refine ⟨fun _ => rfl, fun hlt => absurd hlt (by simp)⟩
  | cons e rest ih =>
    intro acc d k hk hfull hstop
    cases k with
    | zero =>
      refine ⟨fun h0 => absurd h0.symm (by simp), fun hlt => ?_⟩
      have hd : d < sumL ((e :: rest).take 1) := hstop hlt
      have hdL : d < e.L := by
        simpa [sumL] using hd
      have hle : ¬(leDist e.L (some d) = true) := by
        simp [leDist]
        linarith
      rw [transferMatrixAux_cons, if_neg hle]
      show Matrix.mul (e.transferMatrix (some d)) acc =
        Matrix.mul (((e :: rest).getD 0 idMatrix).transferMatrix
          (some (d - sumL ((e :: rest).take 0))))
          (transferMatrixAux ((e :: rest).take 0) acc none)
      simp [sumL, transferMatrixAux]
    | succ k' =>
      have h1 : sumL ((e :: rest).take 1) ≤ d := hfull 0 (Nat.succ_pos k')
      have he : e.L ≤ d := by
        simpa [sumL] using h1
      have hle : leDist e.L (some d) = true := by
        simp [leDist]
        exact he
      have hk' : k' ≤ rest.length := by
        simp at hk
        omega
      have hfull' : ∀ j, j < k' → sumL (rest.take (j + 1)) ≤ d - e.L := by
        intro j hj
        have := hfull (j + 1) (by omega)
        simp only [List.take_succ_cons, sumL] at this
        linarith
      have hstop' : k' < rest.length → d - e.L < sumL (rest.take (k' + 1)) := by
        intro hlt
        have := hstop (by simp; omega)
        simp only [List.take_succ_cons, sumL] at this
        linarith
      rcases ih (Matrix.mul e acc) (d - e.L) k' hk' hfull' hstop' with ⟨ihEq, ihLt⟩
      have hauxNone : transferMatrixAux (e :: rest) acc none =
          transferMatrixAux rest (Matrix.mul e acc) none := rfl
      have hstep : transferMatrixAux (e :: rest) acc (some d) =
          transferMatrixAux rest (Matrix.mul e acc) (some (d - e.L)) := by
        rw [transferMatrixAux_cons, if_pos hle]
        rfl
      constructor
      · intro hEq
        have hk'' : k' = rest.length := by
          simp at hEq
          omega
        rw [hstep, hauxNone]
        exact ihEq hk''
      · intro hLt
        have hk'' : k' < rest.length := by
          simp at hLt
          omega
        rw [hstep, ihLt hk'']
        have hauxTake : transferMatrixAux (e :: rest.take k') acc none =
            transferMatrixAux (rest.take k') (Matrix.mul e acc) none := rfl
        simp only [List.getD_cons_succ, List.take_succ_cons, sumL, hauxTake]
        rw [sub_sub]

theorem traceLoop_length : ∀ (es : List Matrix) (r : Ray),
    (traceLoop es r).length = es.length := by
  intro es
  induction es with
  | nil => intro r; rfl
  | cons e rest ih =>
    intro r
    show (e.mul_ray r :: traceLoop rest (e.mul_ray r)).length = rest.length + 1
    rw [List.length_cons, ih (e.mul_ray r)]

theorem mul_ray_blocked (m : Matrix) (r : Ray) (h : r.isBlocked = true) :
    (m.mul_ray r).isBlocked = true := by
  simp [Matrix.mul_ray, h]

theorem traceFull_mono : ∀ (es : List Matrix) (r : Ray) (i j : Nat)
    (hi : i < (r :: traceLoop es r).length) (hj : j < (r :: traceLoop es r).length),
    i ≤ j → ((r :: traceLoop es r).get ⟨i, hi⟩).isBlocked = true →
    ((r :: traceLoop es r).get ⟨j, hj⟩).isBlocked = true := by
  intro es
  induction es with
  | nil =>
    intro r i j hi hj hij hblk
    have hi0 : i = 0 := by
      simp [traceLoop] at hi
      omega
    have hj0 : j = 0 := by
      simp [traceLoop] at hj
      omega
    subst hi0
    subst hj0
    exact hblk
  | cons e rest ih =>
    intro r i j hi hj hij hblk
    have hshape : r :: traceLoop (e :: rest) r =
        r :: (e.mul_ray r) :: traceLoop rest (e.mul_ray r) := rfl
    cases i with
    | zero =>
      cases j with
      | zero => exact hblk
      | succ j' =>
        have hr : r.isBlocked = true := hblk
        have hblk' : ((e.mul_ray r :: traceLoop rest (e.mul_ray r)).get
            ⟨0, by simp⟩).isBlocked = true := mul_ray_blocked e r hr
        exact ih (e.mul_ray r) 0 j' (by simp) (by simpa using hj) (by omega) hblk'
    | succ i' =>
      cases j with
      | zero => omega
      | succ j' =>
        exact ih (e.mul_ray r) i' j' (by simpa using hi) (by simpa using hj)
          (by omega) hblk

theorem traceFull_step : ∀ (es : List Matrix) (r : Ray) (i : Nat)
    (hi : i < es.length),
    (r :: traceLoop es r).get? (i + 1) =
      ((r :: traceLoop es r).get? i).map (fun x => (es.get ⟨i, hi⟩).mul_ray x) := by
  intro es
  induction es with
  | nil => intro r i hi; exact absurd hi (by simp)
  | cons e rest ih =>
    intro r i hi
    cases i with
    | zero => rfl
    | succ i' =>
      have hi' : i' < rest.length := by simpa using hi
      have := ih (e.mul_ray r) i' hi'
      exact this

theorem trace_nonRay (g : MatrixGroup) :
    g.trace TraceArg.nonRay = ([], g, some Err.typeErr) := rfl

theorem trace_ray_eq (g : MatrixGroup) (r : Ray) :
    g.trace (TraceArg.ray r) =
      if g.lastRayToBeTraced = some r.rid then (g.lastRayTrace, g, none)
      else
        (r :: traceLoop g.elements r,
         ⟨g.elements, g.A, g.B, g.C, g.D, g.L, g.frontVertex, g.backVertex,
          some r.rid, r :: traceLoop g.elements r, g.iteration⟩, none) := rfl

theorem trace_hit (g : MatrixGroup) (r : Ray)
    (h : g.lastRayToBeTraced = some r.rid) :
    g.trace (TraceArg.ray r) = (g.lastRayTrace, g, none) := by
  rw [trace_ray_eq, if_pos h]

theorem trace_miss (g : MatrixGroup) (r : Ray)
    (h : ¬(g.lastRayToBeTraced = some r.rid)) :
    g.trace (TraceArg.ray r) =
      (r :: traceLoop g.elements r,
       ⟨g.elements, g.A, g.B, g.C, g.D, g.L, g.frontVertex, g.backVertex,
        some r.rid, r :: traceLoop g.elements r, g.iteration⟩, none) := by
  rw [trace_ray_eq, if_neg h]

theorem trace_cacheState (g : MatrixGroup) (r : Ray) :
    (g.trace (TraceArg.ray r)).2.1.lastRayToBeTraced = some r.rid ∧
    (g.trace (TraceArg.ray r)).2.1.lastRayTrace = (g.trace (TraceArg.ray r)).1 := by
  by_cases h : g.lastRayToBeTraced = some r.rid
  · rw [trace_hit g r h]
    exact ⟨h, rfl⟩
  · rw [trace_miss g r h]
    exact ⟨rfl, rfl⟩

theorem replayAppend_single_fst (g : MatrixGroup) (m : Matrix) :
    (g.replayAppend [m]).1 = (g.appendM m).g := by
  rcases appendM_err_or g m with h | h
  · rw [replayAppend_cons_ok g m [] h]
    rfl
  · rw [replayAppend_cons_err g m [] Err.valueErr h]

/-- The state right after a structural edit executes `self.elements = []`:
the live list is cleared while every other field keeps its old value. -/
def clearedOf (g : MatrixGroup) : MatrixGroup :=
  ⟨[], g.A, g.B, g.C, g.D, g.L, g.frontVertex, g.backVertex,
   g.lastRayToBeTraced, g.lastRayTrace, g.iteration⟩

theorem removeElement_eq (g : MatrixGroup) (i : Int) (pad : Bool) :
    g.removeElement i pad =
      if (g.elements.length : Int) ≤ normIdx i g.elements.length ∨
          normIdx i g.elements.length < 0 then
        (g, some (Err.indexErr (normIdx i g.elements.length)
          ((g.elements.length : Int) - 1)))
      else
        MatrixGroup.editLoop (fRemove (normIdx i g.elements.length) pad) 0
          g.elements (clearedOf g) := rfl

theorem insertElement_wrap_err (g : MatrixGroup) (i : Int) (arg : List Matrix)
    (w : MatrixGroup) (e : Err) (h : MatrixGroup.ofElements arg = (w, some e)) :
    g.insertElement i arg = (g, some e) := by
  simp only [MatrixGroup.insertElement, h]

theorem insertElement_wrap_ok (g : MatrixGroup) (i : Int) (arg : List Matrix)
    (w : MatrixGroup) (h : MatrixGroup.ofElements arg = (w, none)) :
    g.insertElement i arg =
      if (g.elements.length : Int) < normIdx i g.elements.length ∨
          normIdx i g.elements.length < 0 then
        (g, some (Err.indexErr (normIdx i g.elements.length)
          (g.elements.length : Int)))
      else if normIdx i g.elements.length = (g.elements.length : Int) then
        g.replayAppend w.elements
      else
        MatrixGroup.editLoop (fInsert (normIdx i g.elements.length) w.elements) 0
          g.elements (clearedOf g) := by
  simp only [MatrixGroup.insertElement, h]
  rfl

theorem replaceSingle_wrap_err (g : MatrixGroup) (i : Int) (arg : List Matrix)
    (w : MatrixGroup) (e : Err) (h : MatrixGroup.ofElements arg = (w, some e)) :
    g.replaceSingle i arg = (g, some e) := by
  simp only [MatrixGroup.replaceSingle, h]

theorem replaceSingle_wrap_ok (g : MatrixGroup) (i : Int) (arg : List Matrix)
    (w : MatrixGroup) (h : MatrixGroup.ofElements arg = (w, none)) :
    g.replaceSingle i arg =
      if (g.elements.length : Int) ≤ normIdx i g.elements.length ∨
          normIdx i g.elements.length < 0 then
        (g, some (Err.indexErr (normIdx i g.elements.length)
          ((g.elements.length : Int) - 1)))
      else
        MatrixGroup.editLoop (fReplaceOne (normIdx i g.elements.length) w.elements)
          0 g.elements (clearedOf g) := by
  simp only [MatrixGroup.replaceSingle, h]
  rfl

theorem replaceChunk_wrap_err (g : MatrixGroup) (s t : Int) (arg : List Matrix)
    (w : MatrixGroup) (e : Err) (h : MatrixGroup.ofElements arg = (w, some e)) :
    g.replaceChunk s t arg = (g, some e) := by
  simp only [MatrixGroup.replaceChunk, h]

theorem replaceChunk_wrap_ok (g : MatrixGroup) (s t : Int) (arg : List Matrix)
    (w : MatrixGroup) (h : MatrixGroup.ofElements arg = (w, none)) :
    g.replaceChunk s t arg =
      if (g.elements.length : Int) ≤ normIdx s g.elements.length ∨
          normIdx s g.elements.length < 0 then
        (g, some (Err.indexErr (normIdx s g.elements.length)
          ((g.elements.length : Int) - 1)))
      else if (g.elements.length : Int) ≤ normIdx t g.elements.length ∨
          normIdx t g.elements.length < 0 then
        (g, some (Err.indexErr (normIdx t g.elements.length)
          ((g.elements.length : Int) - 1)))
      else if normIdx s g.elements.length = normIdx t g.elements.length then
        (g, some Err.indexErrSame)
      else
        MatrixGroup.editLoop
          (fChunk (min (normIdx s g.elements.length) (normIdx t g.elements.length))
            (max (normIdx s g.elements.length) (normIdx t g.elements.length))
            w.elements) 0 g.elements (clearedOf g) := by
  simp only [MatrixGroup.replaceChunk, h]
  rfl

theorem flipOrientation_eq (g : MatrixGroup) :
    g.flipOrientation =
      (clearedOf g).replayAppend (g.elements.reverse.map Matrix.flipOrientation) := rfl

theorem applyEdit_shape (g : MatrixGroup) (op : EditOp) :
    g.applyEdit op = g ∨
    (∃ ms, g.applyEdit op = (g.replayAppend ms).1) ∨
    (∃ ms, g.applyEdit op = ((clearedOf g).replayAppend ms).1) := by
  cases op with
  | app a =>
    cases a with
    | nonMatrix => exact Or.inl rfl
    | mat m => exact Or.inr (Or.inl ⟨[m], (replayAppend_single_fst g m).symm⟩)
  | remove i pad =>
    rw [show g.applyEdit (EditOp.remove i pad) = (g.removeElement i pad).1 from rfl,
      removeElement_eq]
    by_cases hb : (g.elements.length : Int) ≤ normIdx i g.elements.length ∨
        normIdx i g.elements.length < 0
    · rw [if_pos hb]
      exact Or.inl rfl
    · rw [if_neg hb, editLoop_eq_replay]
      exact Or.inr (Or.inr ⟨_, rfl⟩)
  | insert i ms =>
    rw [show g.applyEdit (EditOp.insert i ms) = (g.insertElement i ms).1 from rfl]
    rcases hw : MatrixGroup.ofElements ms with ⟨w, e?⟩
    cases e? with
    | some e =>
      rw [insertElement_wrap_err g i ms w e hw]
      exact Or.inl rfl
    | none =>
      rw [insertElement_wrap_ok g i ms w hw]
      by_cases hb : (g.elements.length : Int) < normIdx i g.elements.length ∨
          normIdx i g.elements.length < 0
      · rw [if_pos hb]
        exact Or.inl rfl
      · rw [if_neg hb]
        by_cases hend : normIdx i g.elements.length = (g.elements.length : Int)
        · rw [if_pos hend]
          exact Or.inr (Or.inl ⟨_, rfl⟩)
        · rw [if_neg hend, editLoop_eq_replay]
          exact Or.inr (Or.inr ⟨_, rfl⟩)
  | replaceOne i ms =>
    rw [show g.applyEdit (EditOp.replaceOne i ms) = (g.replaceSingle i ms).1 from rfl]
    rcases hw : MatrixGroup.ofElements ms with ⟨w, e?⟩
    cases e? with
    | some e =>
      rw [replaceSingle_wrap_err g i ms w e hw]
      exact Or.inl rfl
    | none =>
      rw [replaceSingle_wrap_ok g i ms w hw]
      by_cases hb : (g.elements.length : Int) ≤ normIdx i g.elements.length ∨
          normIdx i g.elements.length < 0
      · rw [if_pos hb]
        exact Or.inl rfl
      · rw [if_neg hb, editLoop_eq_replay]
        exact Or.inr (Or.inr ⟨_, rfl⟩)
  | replaceRange s t ms =>
    rw [show g.applyEdit (EditOp.replaceRange s t ms) = (g.replaceChunk s t ms).1 from rfl]
    rcases hw : MatrixGroup.ofElements ms with ⟨w, e?⟩
    cases e? with
    | some e =>
      rw [replaceChunk_wrap_err g s t ms w e hw]
      exact Or.inl rfl
    | none =>
      rw [replaceChunk_wrap_ok g s t ms w hw]
      by_cases hb1 : (g.elements.length : Int) ≤ normIdx s g.elements.length ∨
          normIdx s g.elements.length < 0
      · rw [if_pos hb1]
        exact Or.inl rfl
      · rw [if_neg hb1]
        by_cases hb2 : (g.elements.length : Int) ≤ normIdx t g.elements.length ∨
            normIdx t g.elements.length < 0
        · rw [if_pos hb2]
          exact Or.inl rfl
        · rw [if_neg hb2]
          by_cases hb3 : normIdx s g.elements.length = normIdx t g.elements.length
          · rw [if_pos hb3]
            exact Or.inl rfl
          · rw [if_neg hb3, editLoop_eq_replay]
            exact Or.inr (Or.inr ⟨_, rfl⟩)
  | flip =>
    rw [show g.applyEdit EditOp.flip = g.flipOrientation.1 from rfl, flipOrientation_eq]
    exact Or.inr (Or.inr ⟨_, rfl⟩)

theorem applyEdit_cache (g : MatrixGroup) (op : EditOp) :
    (g.applyEdit op).lastRayToBeTraced = g.lastRayToBeTraced ∧
    (g.applyEdit op).lastRayTrace = g.lastRayTrace := by
  rcases applyEdit_shape g op with h | ⟨ms, h⟩ | ⟨ms, h⟩ <;> rw [h]
  · exact ⟨rfl, rfl⟩
  · exact ⟨(replayAppend_cache ms g).1, (replayAppend_cache ms g).2.1⟩
  · exact ⟨(replayAppend_cache ms (clearedOf g)).1,
      (replayAppend_cache ms (clearedOf g)).2.1⟩

theorem applyEdit_inv (g : MatrixGroup) (op : EditOp)
    (hP : g.elements = [] ∨ aggConsistent g) :
    (g.applyEdit op).elements = [] ∨ aggConsistent (g.applyEdit op) := by
  rcases applyEdit_shape g op with h | ⟨ms, h⟩ | ⟨ms, h⟩ <;> rw [h]
  · exact hP
  · exact replayAppend_inv ms g hP
  · exact replayAppend_inv ms (clearedOf g) (Or.inl rfl)

theorem sumL_split : ∀ (es : List Matrix) (j : Nat), j < es.length →
    sumL es = sumL (es.take j) + (es.getD j idMatrix).L + sumL (es.drop (j + 1)) := by
  intro es
  induction es with
  | nil => intro j hj; exact absurd hj (by simp)
  | cons e rest ih =>
    intro j hj
    cases j with
    | zero => simp [sumL]
    | succ j' =>
      have := ih j' (by simpa using hj)
      simp only [sumL, List.take_cons, List.getD_cons_succ, List.drop_succ_cons]
      rw [this]
      show e.L + (sumL (rest.take j') + (rest.getD j' idMatrix).L + sumL (rest.drop (j' + 1))) =
        (e.L + sumL (rest.take j')) + (rest.getD j' idMatrix).L + sumL (rest.drop (j' + 1))
      ring

theorem ofElements_singleton (m : Matrix) :
    MatrixGroup.ofElements [m] = (MatrixGroup.empty.recompute [m], none) := by
  have hnil : MatrixGroup.empty.elements.getLast? = none := rfl
  have h := appendM_getLast_none MatrixGroup.empty m hnil
  have herr : (MatrixGroup.empty.appendM m).err = none := by rw [h]; rfl
  show MatrixGroup.empty.replayAppend [m] = (MatrixGroup.empty.recompute [m], none)
  rw [replayAppend_cons_ok MatrixGroup.empty m [] herr, h]
  rfl

theorem recompute_self (g : MatrixGroup) (h : aggConsistent g) :
    g.recompute g.elements = g := by
  obtain ⟨h1, h2, h3, h4, h5, h6, h7⟩ := h
  cases g with
  | mk es gA gB gC gD gL gfv gbv glr glt git =>
    show MatrixGroup.mk es _ _ _ _ _ _ _ glr glt git = MatrixGroup.mk es gA gB gC gD gL gfv gbv glr glt git
    rw [MatrixGroup.mk.injEq]
    exact ⟨rfl, h1.symm, h2.symm, h3.symm, h4.symm, h5.symm, h6.symm, h7.symm,
      rfl, rfl, rfl⟩

theorem clearedOf_recompute (g : MatrixGroup) (es : List Matrix) :
    (clearedOf g).recompute es = g.recompute es := rfl

theorem recompute_clearedOf (g : MatrixGroup) (es es' : List Matrix) :
    (clearedOf (g.recompute es)).recompute es' = g.recompute es' := rfl

/-- C10: a sequence acts as its own iterator.  `__iter__` resets the single
shared position counter to zero and returns the sequence object itself
(same elements, same aggregate, only the counter reset), so starting a
second iteration while a first is in progress resets the first iteration's
position: after one `__next__` the counter is 1, a fresh `__iter__` puts it
back to 0, and the restarted iteration yields element 0 again instead of
continuing where the first iteration stood — two interleaved iterations
share one counter and do not independently visit every element. -/
theorem iterator_shared_counter (g : MatrixGroup) (h1 : 1 ≤ g.elements.length) :
    g.iterSelf = ⟨g.elements, g.A, g.B, g.C, g.D, g.L, g.frontVertex,
      g.backVertex, g.lastRayToBeTraced, g.lastRayTrace, 0⟩ ∧
    (g.iterSelf.nextElement).1 = g.elements.get? 0 ∧
    (g.iterSelf.nextElement).2.iteration = 1 ∧
    (g.iterSelf.nextElement).2.elements = g.elements ∧
    ((g.iterSelf.nextElement).2.iterSelf).iteration = 0 ∧
    (((g.iterSelf.nextElement).2.iterSelf).nextElement).1 = g.elements.get? 0 := by
  have hpos : 0 < g.elements.length := h1
  have hstep : g.iterSelf.nextElement =
      (some (g.elements.get ⟨0, hpos⟩),
       ⟨g.elements, g.A, g.B, g.C, g.D, g.L, g.frontVertex, g.backVertex,
        g.lastRayToBeTraced, g.lastRayTrace, 1⟩) := by
    unfold MatrixGroup.nextElement
    rw [dif_pos (show g.iterSelf.iteration < g.iterSelf.elements.length from hpos)]
    rfl
  have hget : g.elements.get? 0 = some (g.elements.get ⟨0, hpos⟩) :=
    List.get?_eq_get hpos
  refine ⟨rfl, ?_, ?_, ?_, ?_, ?_⟩
  · rw [hstep, hget]
  · rw [hstep]
  · rw [hstep]
  · rw [hstep]
    rfl
  · rw [hstep]
    show (MatrixGroup.nextElement
      ⟨g.elements, g.A, g.B, g.C, g.D, g.L, g.frontVertex, g.backVertex,
       g.lastRayToBeTraced, g.lastRayTrace, 0⟩).1 = g.elements.get? 0
    unfold MatrixGroup.nextElement
    rw [dif_pos (show (0 : Nat) < g.elements.length from hpos), hget]

/-- C8: the single-entry trace cache is keyed solely on the identity of the
last traced ray.  Tracing the same ray object again returns the very same
cached list; this still holds when any structural edit happens between the
two calls, so the second call then returns the stale pre-edit trace; and
tracing a different ray object (any `rid` other than the cached one, even
with equal height and angle) recomputes the trace over the current element
list. -/
theorem trace_cache_identity (g : MatrixGroup) (r : Ray) :
    ((g.trace (TraceArg.ray r)).2.1.trace (TraceArg.ray r)).1 =
      (g.trace (TraceArg.ray r)).1 ∧
    (∀ op : EditOp,
      (((g.trace (TraceArg.ray r)).2.1.applyEdit op).trace (TraceArg.ray r)).1 =
        (g.trace (TraceArg.ray r)).1) ∧
    (∀ r' : Ray, r'.rid ≠ r.rid →
      ((g.trace (TraceArg.ray r)).2.1.trace (TraceArg.ray r')).1 =
        r' :: traceLoop (g.trace (TraceArg.ray r)).2.1.elements r') := by
  obtain ⟨hkey, htr⟩ := trace_cacheState g r
  refine ⟨?_, ?_, ?_⟩
  · rw [trace_hit _ r hkey]
    exact htr
  · intro op
    obtain ⟨hek, het⟩ := applyEdit_cache (g.trace (TraceArg.ray r)).2.1 op
    have hkey' : ((g.trace (TraceArg.ray r)).2.1.applyEdit op).lastRayToBeTraced =
        some r.rid := by
      rw [hek]
      exact hkey
    rw [trace_hit _ r hkey']
    rw [het]
    exact htr
  · intro r' hne
    have hmiss : ¬((g.trace (TraceArg.ray r)).2.1.lastRayToBeTraced = some r'.rid) := by
      rw [hkey]
      intro hc
      exact hne (Option.some.inj hc).symm
    rw [trace_miss _ r' hmiss]

/-- C3 (amended): after every structural mutation of a sequence whose state
satisfies the reachability invariant (empty list, or aggregate fields equal
to the folded transfer matrix), the aggregate fields `A,B,C,D,L,
frontVertex,backVertex` again equal the transfer matrix folded over the
full current element list whenever the resulting element list is
non-empty.  A mutation that leaves the element list empty (removing or
replacing away the only element) performs no `append` and leaves the
previous aggregate fields in place, stale. -/
theorem aggregate_recompute_on_edit (g : MatrixGroup) (op : EditOp)
    (hinv : g.elements = [] ∨ aggConsistent g)
    (hne : (g.applyEdit op).elements ≠ []) :
    aggConsistent (g.applyEdit op) := by
  rcases applyEdit_inv g op hinv with h | h
  · exact absurd h hne
  · exact h

/-- C3 counterexample: removing the only element (a lens) with `pad=False`
succeeds and empties the element list, but the aggregate fields keep the
removed lens's values: the stored `C` is `-1/5` while the transfer matrix
folded over the now-empty list has `C = 0` — the aggregate is stale, so the
claim that every structural mutation immediately recomputes the aggregate
is false. -/
theorem aggregate_stale_cex :
    ((MatrixGroup.ofElements [Lens 5 none]).1.removeElement 0 false).2 = none ∧
    ((MatrixGroup.ofElements [Lens 5 none]).1.removeElement 0 false).1.elements = [] ∧
    ((MatrixGroup.ofElements [Lens 5 none]).1.removeElement 0 false).1.C = -(1 / 5) ∧
    ((((MatrixGroup.ofElements [Lens 5 none]).1.removeElement 0 false).1.transferMatrix
      none).C = 0) ∧
    ¬aggConsistent ((MatrixGroup.ofElements [Lens 5 none]).1.removeElement 0 false).1 := by
  norm_num [MatrixGroup.ofElements, MatrixGroup.replayAppend, MatrixGroup.appendM,
    MatrixGroup.commitAppend, MatrixGroup.recompute, MatrixGroup.empty,
    transferMatrixAux, Matrix.mul, idMatrix, leDist, subDist, Matrix.transferMatrix,
    Space, Lens, MatrixGroup.removeElement, normIdx, MatrixGroup.editLoop, fRemove,
    clearedOf, aggConsistent, MatrixGroup.transferMatrix]

/-- C4: appending a `Space` whose front index disagrees with the last
element's back index does not raise: the spacer silently adopts the
neighbour's back index on both its front and back faces and the mismatch
warning is emitted; appending any non-`Space` element with a mismatched
index raises the validation error instead. -/
theorem append_space_mismatch_policy (g : MatrixGroup) (lst : Matrix)
    (hlast : g.elements.getLast? = some lst) :
    (∀ d n : ℚ, lst.backIndex ≠ n →
      (g.appendM (Space d n)).err = none ∧
      (g.appendM (Space d n)).warned = true ∧
      (g.appendM (Space d n)).g.elements = g.elements ++ [Space d lst.backIndex]) ∧
    (∀ m : Matrix, m.isSpace = false → lst.backIndex ≠ m.frontIndex →
      g.appendM m = ⟨g, some Err.valueErr, false⟩) := by
  constructor
  · intro d n hne
    have h := appendM_space_fix g (Space d n) lst hlast hne rfl
    rw [h]
    refine ⟨rfl, rfl, ?_⟩
    rfl
  · intro m hsp hne
    exact appendM_mismatch g m lst hlast hne hsp

theorem editLoop_err_or (f : Nat → Matrix → List Matrix) (ms : List Matrix)
    (i : Nat) (g : MatrixGroup) :
    (MatrixGroup.editLoop f i ms g).2 = none ∨
    (MatrixGroup.editLoop f i ms g).2 = some Err.valueErr := by
  rw [editLoop_eq_replay]
  exact replayAppend_err_or _ _

/-- C5: the error classes named by the specification are atomic.  A type
error from `append` or `trace` on an invalid argument, an index-mismatch
validation error from a direct `append` call, and a bounds error from any
of the four structural edits (including `replaceChunk`'s equal-indices
error) are all raised before any state is touched, so the element list and
the aggregate state are exactly those from before the call. -/
theorem error_state_atomicity :
    (∀ g : MatrixGroup, g.append AppendArg.nonMatrix = ⟨g, some Err.typeErr, false⟩) ∧
    (∀ (g : MatrixGroup) (m lst : Matrix), g.elements.getLast? = some lst →
      m.isSpace = false → lst.backIndex ≠ m.frontIndex →
      g.appendM m = ⟨g, some Err.valueErr, false⟩) ∧
    (∀ g : MatrixGroup, g.trace TraceArg.nonRay = ([], g, some Err.typeErr)) ∧
    (∀ (g : MatrixGroup) (i : Int) (pad : Bool),
      ((g.elements.length : Int) ≤ normIdx i g.elements.length ∨
        normIdx i g.elements.length < 0) →
      g.removeElement i pad =
        (g, some (Err.indexErr (normIdx i g.elements.length)
          ((g.elements.length : Int) - 1)))) ∧
    (∀ (g : MatrixGroup) (i : Int) (arg : List Matrix) (w : MatrixGroup),
      MatrixGroup.ofElements arg = (w, none) →
      ((g.elements.length : Int) < normIdx i g.elements.length ∨
        normIdx i g.elements.length < 0) →
      g.insertElement i arg =
        (g, some (Err.indexErr (normIdx i g.elements.length)
          (g.elements.length : Int)))) ∧
    (∀ (g : MatrixGroup) (i : Int) (arg : List Matrix) (w : MatrixGroup),
      MatrixGroup.ofElements arg = (w, none) →
      ((g.elements.length : Int) ≤ normIdx i g.elements.length ∨
        normIdx i g.elements.length < 0) →
      g.replaceSingle i arg =
        (g, some (Err.indexErr (normIdx i g.elements.length)
          ((g.elements.length : Int) - 1)))) ∧
    (∀ (g : MatrixGroup) (s t : Int) (arg : List Matrix) (w : MatrixGroup),
      MatrixGroup.ofElements arg = (w, none) →
      (((g.elements.length : Int) ≤ normIdx s g.elements.length ∨
          normIdx s g.elements.length < 0) ∨
       ((g.elements.length : Int) ≤ normIdx t g.elements.length ∨
          normIdx t g.elements.length < 0) ∨
       normIdx s g.elements.length = normIdx t g.elements.length) →
      (g.replaceChunk s t arg).1 = g ∧ (g.replaceChunk s t arg).2 ≠ none) := by
  refine ⟨fun g => rfl, ?_, fun g => rfl, ?_, ?_, ?_, ?_⟩
  · intro g m lst hlast hsp hne
    exact appendM_mismatch g m lst hlast hne hsp
  · intro g i pad hb
    rw [removeElement_eq, if_pos hb]
  · intro g i arg w hw hb
    rw [insertElement_wrap_ok g i arg w hw, if_pos hb]
  · intro g i arg w hw hb
    rw [replaceSingle_wrap_ok g i arg w hw, if_pos hb]
  · intro g s t arg w hw hb
    rw [replaceChunk_wrap_ok g s t arg w hw]
    by_cases hb1 : (g.elements.length : Int) ≤ normIdx s g.elements.length ∨
        normIdx s g.elements.length < 0
    · rw [if_pos hb1]
      exact ⟨rfl, by simp⟩
    · rw [if_neg hb1]
      by_cases hb2 : (g.elements.length : Int) ≤ normIdx t g.elements.length ∨
          normIdx t g.elements.length < 0
      · rw [if_pos hb2]
        exact ⟨rfl, by simp⟩
      · rw [if_neg hb2]
        have hb3 : normIdx s g.elements.length = normIdx t g.elements.length := by
          rcases hb with h | h | h
          · exact absurd h hb1
          · exact absurd h hb2
          · exact h
        rw [if_pos hb3]
        exact ⟨rfl, by simp⟩

/-- C9: `insertElement` accepts index `n` (one past the last element) and
then simply appends the new element(s) at the end; it raises an index
error exactly when the index, after adding `n` to a negative index, is
still negative or strictly greater than `n`.  `removeElement` and
`replaceSingle`, by contrast, reject index `n` with a bounds error naming
`n - 1` as the largest valid index. -/
theorem insertElement_end_asymmetry :
    (∀ (g : MatrixGroup) (arg : List Matrix) (w : MatrixGroup),
      MatrixGroup.ofElements arg = (w, none) →
      g.insertElement (g.elements.length : Int) arg = g.replayAppend w.elements) ∧
    (∀ (g : MatrixGroup) (i : Int) (arg : List Matrix) (w : MatrixGroup),
      MatrixGroup.ofElements arg = (w, none) →
      ((∃ a b, (g.insertElement i arg).2 = some (Err.indexErr a b)) ↔
        (normIdx i g.elements.length < 0 ∨
          (g.elements.length : Int) < normIdx i g.elements.length))) ∧
    (∀ (g : MatrixGroup) (pad : Bool),
      g.removeElement (g.elements.length : Int) pad =
        (g, some (Err.indexErr (g.elements.length : Int)
          ((g.elements.length : Int) - 1)))) ∧
    (∀ (g : MatrixGroup) (arg : List Matrix) (w : MatrixGroup),
      MatrixGroup.ofElements arg = (w, none) →
      g.replaceSingle (g.elements.length : Int) arg =
        (g, some (Err.indexErr (g.elements.length : Int)
          ((g.elements.length : Int) - 1)))) := by
  have hnormlen : ∀ n : Nat, normIdx (n : Int) n = (n : Int) := by
    intro n
    unfold normIdx
    rw [if_neg (by omega)]
  refine ⟨?_, ?_, ?_, ?_⟩
  · intro g arg w hw
    rw [insertElement_wrap_ok g _ arg w hw, hnormlen, if_neg (by omega), if_pos rfl]
  · intro g i arg w hw
    constructor
    · rintro ⟨a, b, hab⟩
      by_contra hnb
      push_neg at hnb
      obtain ⟨hn1, hn2⟩ := hnb
      rw [insertElement_wrap_ok g i arg w hw, if_neg (by omega)] at hab
      by_cases hend : normIdx i g.elements.length = (g.elements.length : Int)
      · rw [if_pos hend] at hab
        rcases replayAppend_err_or w.elements g with h | h <;> rw [h] at hab <;>
          simp at hab
      · rw [if_neg hend] at hab
        rcases editLoop_err_or (fInsert (normIdx i g.elements.length) w.elements)
            g.elements 0 (clearedOf g) with h | h <;> rw [h] at hab <;> simp at hab
    · intro hout
      rw [insertElement_wrap_ok g i arg w hw, if_pos (by omega)]
      exact ⟨_, _, rfl⟩
  · intro g pad
    rw [removeElement_eq, hnormlen, if_pos (by omega)]
  · intro g arg w hw
    rw [replaceSingle_wrap_ok g _ arg w hw, hnormlen, if_pos (by omega)]

/-- C2 (amended): for every sequence and every valid input ray that is not
reference-identical to the cached last-traced ray, the list returned by
`trace` has length exactly `1 + number_of_elements`, begins with the input
ray, each later entry is the previous entry propagated through the
corresponding element (so a blocked ray is still handed to every later
element), and the blocked flag is monotone along the list: entries before
the blocking element are unblocked and entries from it onward are blocked.
When the ray is identical to the cached one the stale cached list is
returned instead (claim C8), which can have a different length after a
structural edit. -/
theorem trace_length_and_blocking (g : MatrixGroup) (r : Ray)
    (hmiss : ¬(g.lastRayToBeTraced = some r.rid)) :
    (g.trace (TraceArg.ray r)).1.length = 1 + g.elements.length ∧
    (g.trace (TraceArg.ray r)).1.head? = some r ∧
    (∀ i (hi : i < g.elements.length),
      (g.trace (TraceArg.ray r)).1.get? (i + 1) =
        ((g.trace (TraceArg.ray r)).1.get? i).map
          (fun x => (g.elements.get ⟨i, hi⟩).mul_ray x)) ∧
    (∀ i j (hi : i < (g.trace (TraceArg.ray r)).1.length)
        (hj : j < (g.trace (TraceArg.ray r)).1.length), i ≤ j →
      ((g.trace (TraceArg.ray r)).1.get ⟨i, hi⟩).isBlocked = true →
      ((g.trace (TraceArg.ray r)).1.get ⟨j, hj⟩).isBlocked = true) := by
  rw [trace_miss g r hmiss]
  refine ⟨?_, rfl, ?_, ?_⟩
  · show (r :: traceLoop g.elements r).length = 1 + g.elements.length
    rw [List.length_cons, traceLoop_length]
    omega
  · intro i hi
    exact traceFull_step g.elements r i hi
  · intro i j hi hj hij hblk
    exact traceFull_mono g.elements r i j hi hj hij hblk

/-- C2 counterexample: trace a ray through a one-element sequence, append a
second element, then trace the exact same ray object again.  The second
call returns the stale cached list of length 2 while the sequence now has
2 elements, so the returned length is not `1 + number_of_elements = 3`:
the unconditional length claim is false on cached reruns. -/
theorem trace_stale_length_cex :
    ((((MatrixGroup.ofElements [Space 1 1]).1.trace
        (TraceArg.ray ⟨0, 0, false, 0, 7⟩)).2.1.appendM (Space 1 1)).g.elements.length
      = 2) ∧
    (((((MatrixGroup.ofElements [Space 1 1]).1.trace
        (TraceArg.ray ⟨0, 0, false, 0, 7⟩)).2.1.appendM (Space 1 1)).g.trace
        (TraceArg.ray ⟨0, 0, false, 0, 7⟩)).1.length = 2) ∧
    (2 : Nat) ≠ 1 + 2 := by
  refine ⟨by decide, by decide, by decide⟩

/-- C6 (amended): when `removeElement` completes without raising, removal
with `pad=True` preserves the sequence's total physical length (read off
`transferMatrix()`), and removal with `pad=False` shrinks it by exactly the
removed element's length `d` (assumed non-negative, as for every physical
element).  The replay can instead raise an index-mismatch error when
removal breaks refractive-index continuity between the remaining
neighbours, aborting mid-replay with a partially rebuilt list whose total
length obeys neither equation (see the counterexample). -/
theorem removeElement_totalL (g : MatrixGroup) (i : Int) (pad : Bool)
    (hsucc : (g.removeElement i pad).2 = none)
    (hd : 0 ≤ (g.elements.getD (normIdx i g.elements.length).toNat idMatrix).L) :
    (pad = true → (g.removeElement i pad).1.totalL = g.totalL) ∧
    (pad = false →
      (g.removeElement i pad).1.totalL =
        g.totalL - (g.elements.getD (normIdx i g.elements.length).toNat idMatrix).L) := by
  by_cases hb : (g.elements.length : Int) ≤ normIdx i g.elements.length ∨
      normIdx i g.elements.length < 0
  · rw [removeElement_eq, if_pos hb] at hsucc
    exact absurd hsucc (by simp)
  · push_neg at hb
    obtain ⟨hb1, hb2⟩ := hb
    have hjint : ((normIdx i g.elements.length).toNat : Int) =
        normIdx i g.elements.length := Int.toNat_of_nonneg (by omega)
    have hjlt : (normIdx i g.elements.length).toNat < g.elements.length := by omega
    have hrem : g.removeElement i pad =
        (clearedOf g).replayAppend
          (flatF (fRemove (normIdx i g.elements.length) pad) 0 g.elements) := by
      rw [removeElement_eq, if_neg (by omega), editLoop_eq_replay]
    have hflat : flatF (fRemove (normIdx i g.elements.length) pad) 0 g.elements =
        g.elements.take (normIdx i g.elements.length).toNat ++
          (if 0 < (g.elements.getD (normIdx i g.elements.length).toNat idMatrix).L ∧
              pad = true
           then [Space (g.elements.getD (normIdx i g.elements.length).toNat idMatrix).L 1]
           else []) ++
          g.elements.drop ((normIdx i g.elements.length).toNat + 1) := by
      rw [← hjint]
      exact flatF_fRemove g.elements (normIdx i g.elements.length).toNat pad hjlt
    rw [hrem] at hsucc ⊢
    rw [hflat] at hsucc ⊢
    have hsum := replayAppend_sumL _ (clearedOf g) hsucc
    have hclr : sumL (clearedOf g).elements = 0 := rfl
    rw [hclr, zero_add, sumL_append, sumL_append] at hsum
    have htot : ((clearedOf g).replayAppend
        (g.elements.take (normIdx i g.elements.length).toNat ++
          (if 0 < (g.elements.getD (normIdx i g.elements.length).toNat idMatrix).L ∧
              pad = true
           then [Space (g.elements.getD (normIdx i g.elements.length).toNat idMatrix).L 1]
           else []) ++
          g.elements.drop ((normIdx i g.elements.length).toNat + 1))).1.totalL =
        sumL (g.elements.take (normIdx i g.elements.length).toNat) +
          sumL (if 0 < (g.elements.getD (normIdx i g.elements.length).toNat idMatrix).L ∧
              pad = true
           then [Space (g.elements.getD (normIdx i g.elements.length).toNat idMatrix).L 1]
           else []) +
          sumL (g.elements.drop ((normIdx i g.elements.length).toNat + 1)) := by
      rw [totalL_eq_sumL]
      exact hsum
    have hgtot : g.totalL =
        sumL (g.elements.take (normIdx i g.elements.length).toNat) +
          (g.elements.getD (normIdx i g.elements.length).toNat idMatrix).L +
          sumL (g.elements.drop ((normIdx i g.elements.length).toNat + 1)) := by
      rw [totalL_eq_sumL]
      exact sumL_split g.elements _ hjlt
    constructor
    · intro hpad
      subst hpad
      by_cases hdpos : 0 < (g.elements.getD (normIdx i g.elements.length).toNat idMatrix).L
      · rw [htot, hgtot, if_pos ⟨hdpos, rfl⟩]
        simp only [sumL, Space]
        ring
      · have hd0 : (g.elements.getD (normIdx i g.elements.length).toNat idMatrix).L = 0 := by
          linarith
        rw [htot, hgtot, if_neg (fun hcon => hdpos hcon.1), hd0]
        simp only [sumL]
    · intro hpad
      subst hpad
      rw [htot, hgtot, if_neg (fun hcon => Bool.false_ne_true hcon.2)]
      simp only [sumL]
      ring

/-- C6 counterexample: a sequence of two zero-length index interfaces
(1 to 3/2 and 3/2 back to 1) followed by a thick element of length 2 is
built without error.  `removeElement(1, pad=False)` removes the zero-length
middle interface (`d = 0`), so the claim demands an unchanged total length
of 2; instead the replay raises the index-mismatch error at the junction
`3/2` versus `1`, aborts with only the first interface restored, and the
total length afterwards is 0, not `2 - d = 2`. -/
theorem removeElement_totalL_cex :
    (MatrixGroup.ofElements
      [⟨1, 0, 0, 1, 0, 1, 3 / 2, none, none, none, false⟩,
       ⟨1, 0, 0, 1, 0, 3 / 2, 1, none, none, none, false⟩,
       ⟨1, 2, 0, 1, 2, 1, 1, none, none, none, false⟩]).2 = none ∧
    ((MatrixGroup.ofElements
      [⟨1, 0, 0, 1, 0, 1, 3 / 2, none, none, none, false⟩,
       ⟨1, 0, 0, 1, 0, 3 / 2, 1, none, none, none, false⟩,
       ⟨1, 2, 0, 1, 2, 1, 1, none, none, none, false⟩]).1.removeElement 1 false).1.totalL
      = 0 ∧
    (MatrixGroup.ofElements
      [⟨1, 0, 0, 1, 0, 1, 3 / 2, none, none, none, false⟩,
       ⟨1, 0, 0, 1, 0, 3 / 2, 1, none, none, none, false⟩,
       ⟨1, 2, 0, 1, 2, 1, 1, none, none, none, false⟩]).1.totalL = 2 ∧
    ¬(((MatrixGroup.ofElements
      [⟨1, 0, 0, 1, 0, 1, 3 / 2, none, none, none, false⟩,
       ⟨1, 0, 0, 1, 0, 3 / 2, 1, none, none, none, false⟩,
       ⟨1, 2, 0, 1, 2, 1, 1, none, none, none, false⟩]).1.removeElement 1 false).1.totalL =
      (MatrixGroup.ofElements
      [⟨1, 0, 0, 1, 0, 1, 3 / 2, none, none, none, false⟩,
       ⟨1, 0, 0, 1, 0, 3 / 2, 1, none, none, none, false⟩,
       ⟨1, 2, 0, 1, 2, 1, 1, none, none, none, false⟩]).1.totalL -
      ((MatrixGroup.ofElements
      [⟨1, 0, 0, 1, 0, 1, 3 / 2, none, none, none, false⟩,
       ⟨1, 0, 0, 1, 0, 3 / 2, 1, none, none, none, false⟩,
       ⟨1, 2, 0, 1, 2, 1, 1, none, none, none, false⟩]).1.elements.getD 1 idMatrix).L) := by
  norm_num [MatrixGroup.ofElements, MatrixGroup.replayAppend, MatrixGroup.appendM,
    MatrixGroup.commitAppend, MatrixGroup.recompute, MatrixGroup.empty,
    transferMatrixAux, Matrix.mul, idMatrix, leDist, subDist, Matrix.transferMatrix,
    Space, MatrixGroup.removeElement, normIdx, MatrixGroup.editLoop, fRemove,
    clearedOf, MatrixGroup.totalL, MatrixGroup.transferMatrix]

theorem pair_eq {p : MatrixGroup × Option Err} {g : MatrixGroup} {e : Option Err}
    (h1 : p.1 = g) (h2 : p.2 = e) : p = (g, e) := by
  cases p
  cases h1
  cases h2
  rfl

/-- C7 (amended): on a non-empty sequence satisfying the construction
invariants (consistent aggregate, pairwise index continuity), inserting an
element whose indices are consistent with its neighbours at a valid index
and then removing at the same index restores the sequence exactly: the
original element list, the original aggregate fields, the cache and the
iteration counter (round-trip identity).  On an empty sequence the
element list is restored but no `append` runs during the removal, so the
aggregate keeps the inserted element's values, stale (see the
counterexample). -/
theorem insert_remove_roundtrip (g : MatrixGroup) (e : Matrix) (i : Nat)
    (hne : g.elements ≠ [])
    (hagg : aggConsistent g)
    (hc : chainCont g.elements)
    (hi : i ≤ g.elements.length)
    (hIns : chainCont (g.elements.take i ++ e :: g.elements.drop i)) :
    (g.insertElement (i : Int) [e]).2 = none ∧
    (g.insertElement (i : Int) [e]).1.removeElement (i : Int) false = (g, none) := by
  have hwrap := ofElements_singleton e
  have hnorm : normIdx (i : Int) g.elements.length = (i : Int) := by
    unfold normIdx
    rw [if_neg (by omega)]
  have hL'ne : g.elements.take i ++ e :: g.elements.drop i ≠ [] := by simp
  have hins : g.insertElement (i : Int) [e] =
      (g.recompute (g.elements.take i ++ e :: g.elements.drop i), none) := by
    rw [insertElement_wrap_ok g (i : Int) [e] _ hwrap, hnorm, if_neg (by omega)]
    by_cases hend : (i : Int) = (g.elements.length : Int)
    · rw [if_pos hend]
      have hieq : i = g.elements.length := by exact_mod_cast hend
      have hL'eq : g.elements.take i ++ e :: g.elements.drop i = g.elements ++ [e] := by
        rw [hieq, List.take_length, List.drop_length]
      have hch : chainCont (g.elements ++ [e]) := by
        rw [← hL'eq]
        exact hIns
      obtain ⟨herr, _, hful⟩ := replayAppend_exact [e] g hch
      rw [hL'eq]
      exact pair_eq (hful (by simp)) herr
    · rw [if_neg hend]
      have hilt : i < g.elements.length := by omega
      rw [show (MatrixGroup.empty.recompute [e]).elements = [e] from rfl,
        editLoop_eq_replay, flatF_fInsert g.elements i [e] hilt]
      have hassoc : g.elements.take i ++ [e] ++ g.elements.drop i =
          g.elements.take i ++ e :: g.elements.drop i := by
        rw [List.append_assoc]
        rfl
      rw [hassoc]
      have hch : chainCont ((clearedOf g).elements ++
          (g.elements.take i ++ e :: g.elements.drop i)) := hIns
      obtain ⟨herr, _, hful⟩ := replayAppend_exact _ (clearedOf g) hch
      exact pair_eq (hful hL'ne) herr
  refine ⟨by rw [hins], ?_⟩
  rw [hins]
  have hlen_take : (g.elements.take i).length = i := by
    rw [List.length_take]
    exact Nat.min_eq_left hi
  have hlen' : (g.recompute (g.elements.take i ++ e :: g.elements.drop i)).elements.length
      = g.elements.length + 1 := by
    rw [recompute_elements, List.length_append, hlen_take, List.length_cons,
      List.length_drop]
    omega
  rw [removeElement_eq]
  have hnorm2 : normIdx (i : Int)
      (g.recompute (g.elements.take i ++ e :: g.elements.drop i)).elements.length =
      (i : Int) := by
    unfold normIdx
    rw [if_neg (by omega)]
  rw [hnorm2, if_neg (by rw [hlen']; push_cast; omega)]
  have hilt2 : i <
      (g.recompute (g.elements.take i ++ e :: g.elements.drop i)).elements.length := by
    omega
  rw [show (g.recompute (g.elements.take i ++ e :: g.elements.drop i)).elements =
      g.elements.take i ++ e :: g.elements.drop i from rfl] at hilt2 ⊢
  rw [editLoop_eq_replay,
    flatF_fRemove (g.elements.take i ++ e :: g.elements.drop i) i false hilt2,
    if_neg (fun hcon => Bool.false_ne_true hcon.2), List.append_nil]
  have htake : (g.elements.take i ++ e :: g.elements.drop i).take i =
      g.elements.take i := List.take_left' hlen_take
  have hdrop : (g.elements.take i ++ e :: g.elements.drop i).drop (i + 1) =
      g.elements.drop i := by
    have hsplit : g.elements.take i ++ e :: g.elements.drop i =
        (g.elements.take i ++ [e]) ++ g.elements.drop i := by
      rw [List.append_assoc]
      rfl
    rw [hsplit]
    refine List.drop_left' ?_
    rw [List.length_append, hlen_take]
    rfl
  rw [htake, hdrop, List.take_append_drop]
  have hch2 : chainCont
      ((clearedOf (g.recompute (g.elements.take i ++ e :: g.elements.drop i))).elements ++
        g.elements) := hc
  obtain ⟨herr2, _, hful2⟩ := replayAppend_exact g.elements _ hch2
  exact pair_eq ((hful2 hne).trans (recompute_self g hagg)) herr2

/-- C7 counterexample: on an empty sequence, inserting a lens at index 0
and removing it again restores the empty element list, but the removal
replays nothing, so the aggregate keeps the lens's power: the resulting
`C` is `-1/5` while the original empty sequence had `C = 0` — the
aggregate state is not restored. -/
theorem insert_remove_roundtrip_cex :
    (MatrixGroup.empty.insertElement 0 [Lens 5 none]).2 = none ∧
    ((MatrixGroup.empty.insertElement 0 [Lens 5 none]).1.removeElement 0 false).2 =
      none ∧
    ((MatrixGroup.empty.insertElement 0 [Lens 5 none]).1.removeElement 0
      false).1.elements = MatrixGroup.empty.elements ∧
    ((MatrixGroup.empty.insertElement 0 [Lens 5 none]).1.removeElement 0 false).1.C =
      -(1 / 5) ∧
    MatrixGroup.empty.C = 0 ∧
    (-(1 / 5) : ℚ) ≠ 0 := by
  norm_num [MatrixGroup.insertElement, MatrixGroup.ofElements, MatrixGroup.replayAppend,
    MatrixGroup.appendM, MatrixGroup.commitAppend, MatrixGroup.recompute,
    MatrixGroup.empty, transferMatrixAux, Matrix.mul, idMatrix, leDist, subDist,
    Matrix.transferMatrix, Space, Lens, MatrixGroup.removeElement, normIdx,
    MatrixGroup.editLoop, fRemove, fInsert, clearedOf]

/-- C1 (amended): `transferMatrix(upTo)` walks the elements in order; every
element of the prefix whose cumulative length fits within the budget is
multiplied in fully (subtracting its length from the budget), and at the
first element that no longer fits exactly one partial element is folded in
via that element's own `transferMatrix(upTo=remaining)` before stopping
(when every element fits, the result is the full transfer matrix).  In
particular, for a sequence spacer(d1) + lens(f) + spacer(d2) with
`d1, d2 ≥ 0`, `transferMatrix(upTo=d1)` folds the translation AND the
zero-length lens sitting exactly at distance `d1`, giving the matrix
`[[1, d1], [-1/f, 1 - d1/f]]` rather than the pure translation
`[[1, d1], [0, 1]]`. -/
theorem transferMatrix_walk :
    (∀ (g : MatrixGroup) (d : ℚ) (k : Nat),
      k ≤ g.elements.length →
      (∀ j, j < k → sumL (g.elements.take (j + 1)) ≤ d) →
      (k < g.elements.length → d < sumL (g.elements.take (k + 1))) →
      ((k = g.elements.length →
          g.transferMatrix (some d) = g.transferMatrix none) ∧
       (k < g.elements.length →
          g.transferMatrix (some d) =
            Matrix.mul
              ((g.elements.getD k idMatrix).transferMatrix
                (some (d - sumL (g.elements.take k))))
              (transferMatrixAux (g.elements.take k) idMatrix none)))) ∧
    (∀ d1 f d2 : ℚ, 0 ≤ d1 → 0 ≤ d2 →
      (MatrixGroup.ofElements [Space d1 1, Lens f none, Space d2 1]).2 = none ∧
      ((MatrixGroup.ofElements [Space d1 1, Lens f none,
        Space d2 1]).1.transferMatrix (some d1)).A = 1 ∧
      ((MatrixGroup.ofElements [Space d1 1, Lens f none,
        Space d2 1]).1.transferMatrix (some d1)).B = d1 ∧
      ((MatrixGroup.ofElements [Space d1 1, Lens f none,
        Space d2 1]).1.transferMatrix (some d1)).C = -(1 / f) ∧
      ((MatrixGroup.ofElements [Space d1 1, Lens f none,
        Space d2 1]).1.transferMatrix (some d1)).D = 1 - d1 * (1 / f)) := by
  constructor
  · intro g d k hk hfull hstop
    exact transferMatrixAux_split g.elements idMatrix d k hk hfull hstop
  · intro d1 f d2 hd1 hd2
    have hch : chainCont [Space d1 1, Lens f none, Space d2 1] := by
      simp [chainCont, Space, Lens]
    obtain ⟨herr, _, hful⟩ :=
      replayAppend_exact [Space d1 1, Lens f none, Space d2 1] MatrixGroup.empty hch
    have hg1 : (MatrixGroup.ofElements [Space d1 1, Lens f none, Space d2 1]).1 =
        MatrixGroup.empty.recompute [Space d1 1, Lens f none, Space d2 1] :=
      hful (by simp)
    refine ⟨herr, ?_⟩
    rw [hg1]
    have hstep : (MatrixGroup.empty.recompute
        [Space d1 1, Lens f none, Space d2 1]).transferMatrix (some d1) =
        transferMatrixAux [Space d2 1] (Matrix.mul (Lens f none)
          (Matrix.mul (Space d1 1) idMatrix)) (some (d1 - d1 - 0)) := by
      show transferMatrixAux [Space d1 1, Lens f none, Space d2 1] idMatrix (some d1) = _
      rw [transferMatrixAux_cons, if_pos (by simp [leDist, Space]),
        show subDist (some d1) (Space d1 1).L = some (d1 - d1) from rfl,
        transferMatrixAux_cons, if_pos (by simp [leDist, Lens]),
        show subDist (some (d1 - d1)) (Lens f none).L = some (d1 - d1 - 0) from rfl]
    rw [hstep]
    rcases eq_or_lt_of_le hd2 with hd2e | hd2p
    · rw [transferMatrixAux_cons,
        if_pos (by simp [leDist, Space, ← hd2e])]
      show (Matrix.mul (Space d2 1) (Matrix.mul (Lens f none)
        (Matrix.mul (Space d1 1) idMatrix))).A = 1 ∧ _
      rw [← hd2e]
      refine ⟨?_, ?_, ?_, ?_⟩ <;>
        · simp [transferMatrixAux, subDist, leDist, Matrix.mul, Space, Lens, idMatrix]
          try ring
    · rw [transferMatrixAux_cons,
        if_neg (by simp [leDist, Space]; linarith)]
      have hpart : (Space d2 1).transferMatrix (some (d1 - d1 - 0)) = Space (d1 - d1 - 0) 1 := by
        unfold Matrix.transferMatrix
        rw [if_neg (by simp [leDist, Space]; linarith)]
        rfl
      rw [hpart]
      refine ⟨?_, ?_, ?_, ?_⟩ <;>
        · simp [Matrix.mul, Space, Lens, idMatrix]
          try ring

/-- C1 counterexample: for spacer(10) + lens(10) + spacer(10), the code's
`transferMatrix(upTo=10)` also folds in the zero-length lens located
exactly at distance 10, so its `C` entry is `-1/10`, not the `0` of the
claimed translation matrix `[[1, 10], [0, 1]]`. -/
theorem transferMatrix_boundary_cex :
    (MatrixGroup.ofElements [Space 10 1, Lens 10 none, Space 10 1]).2 = none ∧
    ((MatrixGroup.ofElements [Space 10 1, Lens 10 none,
      Space 10 1]).1.transferMatrix (some 10)).C = -(1 / 10) ∧
    ¬(((MatrixGroup.ofElements [Space 10 1, Lens 10 none,
        Space 10 1]).1.transferMatrix (some 10)).A = 1 ∧
      ((MatrixGroup.ofElements [Space 10 1, Lens 10 none,
        Space 10 1]).1.transferMatrix (some 10)).B = 10 ∧
      ((MatrixGroup.ofElements [Space 10 1, Lens 10 none,
        Space 10 1]).1.transferMatrix (some 10)).C = 0 ∧
      ((MatrixGroup.ofElements [Space 10 1, Lens 10 none,
        Space 10 1]).1.transferMatrix (some 10)).D = 1) := by
  norm_num [MatrixGroup.ofElements, MatrixGroup.replayAppend, MatrixGroup.appendM,
    MatrixGroup.commitAppend, MatrixGroup.recompute, MatrixGroup.empty,
    transferMatrixAux, Matrix.mul, idMatrix, leDist, subDist, Matrix.transferMatrix,
    Space, Lens, MatrixGroup.transferMatrix]

theorem transferMatrix_walk_witness :
    ((0 : Nat) ≤ (⟨[Space 2 1], 1, 0, 0, 1, 0, none, none, none, [], 0⟩ :
      MatrixGroup).elements.length) ∧
    ((⟨[Space 2 1], 1, 0, 0, 1, 0, none, none, none, [], 0⟩ :
        MatrixGroup).transferMatrix (some 1) =
      Matrix.mul
        (((⟨[Space 2 1], 1, 0, 0, 1, 0, none, none, none, [], 0⟩ :
          MatrixGroup).elements.getD 0 idMatrix).transferMatrix
          (some (1 - sumL ((⟨[Space 2 1], 1, 0, 0, 1, 0, none, none, none, [], 0⟩ :
            MatrixGroup).elements.take 0))))
        (transferMatrixAux ((⟨[Space 2 1], 1, 0, 0, 1, 0, none, none, none, [], 0⟩ :
          MatrixGroup).elements.take 0) idMatrix none)) ∧
    (0 ≤ (10 : ℚ)) ∧
    ((MatrixGroup.ofElements [Space 10 1, Lens 10 none,
      Space 10 1]).1.transferMatrix (some 10)).C = -(1 / 10) :=
  ⟨by decide,
   (transferMatrix_walk.1
      (⟨[Space 2 1], 1, 0, 0, 1, 0, none, none, none, [], 0⟩ : MatrixGroup) 1 0
      (by decide)
      (fun j hj => absurd hj (Nat.not_lt_zero j))
      (fun _ => by norm_num [sumL, Space])).2 (by decide),
   by norm_num,
   (transferMatrix_walk.2 10 10 10 (by norm_num) (by norm_num)).2.2.2.1⟩

theorem trace_length_and_blocking_witness :
    ¬((⟨[Space 1 1, Lens 5 (some 1), Space 1 1], 1, 0, 0, 1, 0, none, none, none,
        [], 0⟩ : MatrixGroup).lastRayToBeTraced =
      some (⟨1, 0, false, 0, 7⟩ : Ray).rid) ∧
    ((⟨[Space 1 1, Lens 5 (some 1), Space 1 1], 1, 0, 0, 1, 0, none, none, none,
        [], 0⟩ : MatrixGroup).trace
      (TraceArg.ray ⟨1, 0, false, 0, 7⟩)).1.length =
      1 + (⟨[Space 1 1, Lens 5 (some 1), Space 1 1], 1, 0, 0, 1, 0, none, none, none,
        [], 0⟩ : MatrixGroup).elements.length :=
  ⟨by decide,
   (trace_length_and_blocking
     (⟨[Space 1 1, Lens 5 (some 1), Space 1 1], 1, 0, 0, 1, 0, none, none, none,
       [], 0⟩ : MatrixGroup) ⟨1, 0, false, 0, 7⟩ (by decide)).1⟩

theorem aggregate_recompute_on_edit_witness :
    (MatrixGroup.empty.elements = [] ∨ aggConsistent MatrixGroup.empty) ∧
    (MatrixGroup.empty.applyEdit
      (EditOp.app (AppendArg.mat (Space 1 1)))).elements ≠ [] ∧
    aggConsistent (MatrixGroup.empty.applyEdit
      (EditOp.app (AppendArg.mat (Space 1 1)))) :=
  ⟨Or.inl rfl, by decide,
   aggregate_recompute_on_edit MatrixGroup.empty
     (EditOp.app (AppendArg.mat (Space 1 1))) (Or.inl rfl) (by decide)⟩

theorem append_space_mismatch_policy_witness :
    ((⟨[Space 1 2], 1, 0, 0, 1, 0, none, none, none, [], 0⟩ :
      MatrixGroup).elements.getLast? = some (Space 1 2)) ∧
    ((Space 1 2).backIndex ≠ (1 : ℚ)) ∧
    ((⟨[Space 1 2], 1, 0, 0, 1, 0, none, none, none, [], 0⟩ :
      MatrixGroup).appendM (Space 3 1)).g.elements =
      (⟨[Space 1 2], 1, 0, 0, 1, 0, none, none, none, [], 0⟩ :
        MatrixGroup).elements ++ [Space 3 (Space 1 2).backIndex] ∧
    ((⟨1, 0, 0, 1, 0, 5, 5, none, none, none, false⟩ : Matrix).isSpace = false) ∧
    ((Space 1 2).backIndex ≠
      (⟨1, 0, 0, 1, 0, 5, 5, none, none, none, false⟩ : Matrix).frontIndex) ∧
    (⟨[Space 1 2], 1, 0, 0, 1, 0, none, none, none, [], 0⟩ :
      MatrixGroup).appendM ⟨1, 0, 0, 1, 0, 5, 5, none, none, none, false⟩ =
      ⟨⟨[Space 1 2], 1, 0, 0, 1, 0, none, none, none, [], 0⟩,
        some Err.valueErr, false⟩ :=
  ⟨by decide, by decide,
   ((append_space_mismatch_policy
     (⟨[Space 1 2], 1, 0, 0, 1, 0, none, none, none, [], 0⟩ : MatrixGroup)
     (Space 1 2) (by decide)).1 3 1 (by decide)).2.2,
   rfl, by decide,
   (append_space_mismatch_policy
     (⟨[Space 1 2], 1, 0, 0, 1, 0, none, none, none, [], 0⟩ : MatrixGroup)
     (Space 1 2) (by decide)).2
     ⟨1, 0, 0, 1, 0, 5, 5, none, none, none, false⟩ rfl (by decide)⟩

theorem error_state_atomicity_witness :
    ((⟨[Space 1 1], 1, 1, 0, 1, 1, none, none, none, [], 0⟩ :
      MatrixGroup).append AppendArg.nonMatrix =
      ⟨⟨[Space 1 1], 1, 1, 0, 1, 1, none, none, none, [], 0⟩,
       some Err.typeErr, false⟩) ∧
    ((⟨[Space 1 1], 1, 1, 0, 1, 1, none, none, none, [], 0⟩ :
      MatrixGroup).appendM ⟨1, 0, 0, 1, 0, 5, 5, none, none, none, false⟩ =
      ⟨⟨[Space 1 1], 1, 1, 0, 1, 1, none, none, none, [], 0⟩,
       some Err.valueErr, false⟩) ∧
    ((⟨[Space 1 1], 1, 1, 0, 1, 1, none, none, none, [], 0⟩ :
      MatrixGroup).trace TraceArg.nonRay =
      ([], ⟨[Space 1 1], 1, 1, 0, 1, 1, none, none, none, [], 0⟩,
       some Err.typeErr)) ∧
    ((⟨[Space 1 1], 1, 1, 0, 1, 1, none, none, none, [], 0⟩ :
      MatrixGroup).removeElement 5 true =
      (⟨[Space 1 1], 1, 1, 0, 1, 1, none, none, none, [], 0⟩,
       some (Err.indexErr (normIdx 5 (⟨[Space 1 1], 1, 1, 0, 1, 1, none, none, none,
         [], 0⟩ : MatrixGroup).elements.length)
         (((⟨[Space 1 1], 1, 1, 0, 1, 1, none, none, none, [], 0⟩ :
           MatrixGroup).elements.length : Int) - 1)))) ∧
    ((⟨[Space 1 1], 1, 1, 0, 1, 1, none, none, none, [], 0⟩ :
      MatrixGroup).insertElement 5 [Space 2 1] =
      (⟨[Space 1 1], 1, 1, 0, 1, 1, none, none, none, [], 0⟩,
       some (Err.indexErr (normIdx 5 (⟨[Space 1 1], 1, 1, 0, 1, 1, none, none, none,
         [], 0⟩ : MatrixGroup).elements.length)
         ((⟨[Space 1 1], 1, 1, 0, 1, 1, none, none, none, [], 0⟩ :
           MatrixGroup).elements.length : Int)))) ∧
    ((⟨[Space 1 1], 1, 1, 0, 1, 1, none, none, none, [], 0⟩ :
      MatrixGroup).replaceSingle 1 [Space 2 1] =
      (⟨[Space 1 1], 1, 1, 0, 1, 1, none, none, none, [], 0⟩,
       some (Err.indexErr (normIdx 1 (⟨[Space 1 1], 1, 1, 0, 1, 1, none, none, none,
         [], 0⟩ : MatrixGroup).elements.length)
         (((⟨[Space 1 1], 1, 1, 0, 1, 1, none, none, none, [], 0⟩ :
           MatrixGroup).elements.length : Int) - 1)))) ∧
    (((⟨[Space 1 1], 1, 1, 0, 1, 1, none, none, none, [], 0⟩ :
      MatrixGroup).replaceChunk 0 0 [Space 2 1]).1 =
      ⟨[Space 1 1], 1, 1, 0, 1, 1, none, none, none, [], 0⟩ ∧
     ((⟨[Space 1 1], 1, 1, 0, 1, 1, none, none, none, [], 0⟩ :
      MatrixGroup).replaceChunk 0 0 [Space 2 1]).2 ≠ none) :=
  ⟨error_state_atomicity.1 _,
   error_state_atomicity.2.1 _ _ (Space 1 1) (by decide) rfl (by decide),
   error_state_atomicity.2.2.1 _,
   error_state_atomicity.2.2.2.1 _ 5 true (by decide),
   error_state_atomicity.2.2.2.2.1 _ 5 [Space 2 1] _ (pair_eq rfl rfl) (by decide),
   error_state_atomicity.2.2.2.2.2.1 _ 1 [Space 2 1] _ (pair_eq rfl rfl) (by decide),
   error_state_atomicity.2.2.2.2.2.2 _ 0 0 [Space 2 1] _ (pair_eq rfl rfl)
     (Or.inr (Or.inr rfl))⟩

theorem removeElement_totalL_witness :
    (((⟨[Space 2 1, Lens 4 none, Space 3 1], 1, 0, 0, 1, 0, none, none, none, [], 0⟩ :
      MatrixGroup).removeElement 1 false).2 = none) ∧
    (0 ≤ ((⟨[Space 2 1, Lens 4 none, Space 3 1], 1, 0, 0, 1, 0, none, none, none,
      [], 0⟩ : MatrixGroup).elements.getD
      (normIdx 1 (⟨[Space 2 1, Lens 4 none, Space 3 1], 1, 0, 0, 1, 0, none, none,
        none, [], 0⟩ : MatrixGroup).elements.length).toNat idMatrix).L) ∧
    ((⟨[Space 2 1, Lens 4 none, Space 3 1], 1, 0, 0, 1, 0, none, none, none, [], 0⟩ :
      MatrixGroup).removeElement 1 false).1.totalL =
      (⟨[Space 2 1, Lens 4 none, Space 3 1], 1, 0, 0, 1, 0, none, none, none, [], 0⟩ :
        MatrixGroup).totalL -
      ((⟨[Space 2 1, Lens 4 none, Space 3 1], 1, 0, 0, 1, 0, none, none, none, [], 0⟩ :
        MatrixGroup).elements.getD
        (normIdx 1 (⟨[Space 2 1, Lens 4 none, Space 3 1], 1, 0, 0, 1, 0, none, none,
          none, [], 0⟩ : MatrixGroup).elements.length).toNat idMatrix).L :=
  ⟨by decide, by decide,
   (removeElement_totalL
     (⟨[Space 2 1, Lens 4 none, Space 3 1], 1, 0, 0, 1, 0, none, none, none, [], 0⟩ :
       MatrixGroup) 1 false (by decide) (by decide)).2 rfl⟩

theorem insert_remove_roundtrip_witness :
    ((⟨[Space 2 1, Space 3 1], 1, 5, 0, 1, 5, none, none, none, [], 0⟩ :
      MatrixGroup).elements ≠ []) ∧
    aggConsistent (⟨[Space 2 1, Space 3 1], 1, 5, 0, 1, 5, none, none, none, [], 0⟩ :
      MatrixGroup) ∧
    chainCont (⟨[Space 2 1, Space 3 1], 1, 5, 0, 1, 5, none, none, none, [], 0⟩ :
      MatrixGroup).elements ∧
    (1 ≤ (⟨[Space 2 1, Space 3 1], 1, 5, 0, 1, 5, none, none, none, [], 0⟩ :
      MatrixGroup).elements.length) ∧
    chainCont ((⟨[Space 2 1, Space 3 1], 1, 5, 0, 1, 5, none, none, none, [], 0⟩ :
      MatrixGroup).elements.take 1 ++ Lens 4 none ::
      (⟨[Space 2 1, Space 3 1], 1, 5, 0, 1, 5, none, none, none, [], 0⟩ :
        MatrixGroup).elements.drop 1) ∧
    ((⟨[Space 2 1, Space 3 1], 1, 5, 0, 1, 5, none, none, none, [], 0⟩ :
      MatrixGroup).insertElement ((1 : Nat) : Int) [Lens 4 none]).1.removeElement
      ((1 : Nat) : Int) false =
      (⟨[Space 2 1, Space 3 1], 1, 5, 0, 1, 5, none, none, none, [], 0⟩, none) :=
  ⟨by decide,
   by norm_num [aggConsistent, MatrixGroup.transferMatrix, transferMatrixAux,
     Matrix.mul, idMatrix, Space, leDist, subDist],
   by norm_num [chainCont, Space],
   by decide,
   by norm_num [chainCont, Space, Lens],
   (insert_remove_roundtrip
     (⟨[Space 2 1, Space 3 1], 1, 5, 0, 1, 5, none, none, none, [], 0⟩ : MatrixGroup)
     (Lens 4 none) 1
     (by decide)
     (by norm_num [aggConsistent, MatrixGroup.transferMatrix, transferMatrixAux,
       Matrix.mul, idMatrix, Space, leDist, subDist])
     (by norm_num [chainCont, Space])
     (by decide)
     (by norm_num [chainCont, Space, Lens])).2⟩

theorem trace_cache_identity_witness :
    ((⟨1, 0, false, 0, 4⟩ : Ray).rid ≠ (⟨1, 0, false, 0, 3⟩ : Ray).rid) ∧
    (((⟨[Space 1 1], 1, 1, 0, 1, 1, none, none, none, [], 0⟩ :
        MatrixGroup).trace (TraceArg.ray ⟨1, 0, false, 0, 3⟩)).2.1.trace
      (TraceArg.ray ⟨1, 0, false, 0, 4⟩)).1 =
      (⟨1, 0, false, 0, 4⟩ : Ray) ::
        traceLoop ((⟨[Space 1 1], 1, 1, 0, 1, 1, none, none, none, [], 0⟩ :
          MatrixGroup).trace (TraceArg.ray ⟨1, 0, false, 0, 3⟩)).2.1.elements
          ⟨1, 0, false, 0, 4⟩ :=
  ⟨by decide,
   (trace_cache_identity
     (⟨[Space 1 1], 1, 1, 0, 1, 1, none, none, none, [], 0⟩ : MatrixGroup)
     ⟨1, 0, false, 0, 3⟩).2.2 ⟨1, 0, false, 0, 4⟩ (by decide)⟩

theorem insertElement_end_asymmetry_witness :
    ((⟨[Space 1 1], 1, 1, 0, 1, 1, none, none, none, [], 0⟩ :
      MatrixGroup).insertElement
      ((⟨[Space 1 1], 1, 1, 0, 1, 1, none, none, none, [], 0⟩ :
        MatrixGroup).elements.length : Int) [Space 2 1] =
      (⟨[Space 1 1], 1, 1, 0, 1, 1, none, none, none, [], 0⟩ :
        MatrixGroup).replayAppend
        ((MatrixGroup.ofElements [Space 2 1]).1).elements) ∧
    (∃ a b, ((⟨[Space 1 1], 1, 1, 0, 1, 1, none, none, none, [], 0⟩ :
      MatrixGroup).insertElement 5 [Space 2 1]).2 = some (Err.indexErr a b)) ∧
    ((⟨[Space 1 1], 1, 1, 0, 1, 1, none, none, none, [], 0⟩ :
      MatrixGroup).removeElement
      ((⟨[Space 1 1], 1, 1, 0, 1, 1, none, none, none, [], 0⟩ :
        MatrixGroup).elements.length : Int) false =
      (⟨[Space 1 1], 1, 1, 0, 1, 1, none, none, none, [], 0⟩,
       some (Err.indexErr ((⟨[Space 1 1], 1, 1, 0, 1, 1, none, none, none, [], 0⟩ :
         MatrixGroup).elements.length : Int)
         (((⟨[Space 1 1], 1, 1, 0, 1, 1, none, none, none, [], 0⟩ :
           MatrixGroup).elements.length : Int) - 1)))) ∧
    ((⟨[Space 1 1], 1, 1, 0, 1, 1, none, none, none, [], 0⟩ :
      MatrixGroup).replaceSingle
      ((⟨[Space 1 1], 1, 1, 0, 1, 1, none, none, none, [], 0⟩ :
        MatrixGroup).elements.length : Int) [Space 2 1] =
      (⟨[Space 1 1], 1, 1, 0, 1, 1, none, none, none, [], 0⟩,
       some (Err.indexErr ((⟨[Space 1 1], 1, 1, 0, 1, 1, none, none, none, [], 0⟩ :
         MatrixGroup).elements.length : Int)
         (((⟨[Space 1 1], 1, 1, 0, 1, 1, none, none, none, [], 0⟩ :
           MatrixGroup).elements.length : Int) - 1)))) :=
  ⟨insertElement_end_asymmetry.1 _ [Space 2 1] _ (pair_eq rfl rfl),
   (insertElement_end_asymmetry.2.1 _ 5 [Space 2 1] _ (pair_eq rfl rfl)).mpr
     (by decide),
   insertElement_end_asymmetry.2.2.1 _ false,
   insertElement_end_asymmetry.2.2.2 _ [Space 2 1] _ (pair_eq rfl rfl)⟩

theorem iterator_shared_counter_witness :
    (1 ≤ (⟨[Space 1 1], 1, 1, 0, 1, 1, none, none, none, [], 0⟩ :
      MatrixGroup).elements.length) ∧
    ((((⟨[Space 1 1], 1, 1, 0, 1, 1, none, none, none, [], 0⟩ :
      MatrixGroup).iterSelf.nextElement).2.iterSelf).nextElement).1 =
      (⟨[Space 1 1], 1, 1, 0, 1, 1, none, none, none, [], 0⟩ :
        MatrixGroup).elements.get? 0 :=
  ⟨by decide,
   (iterator_shared_counter
     (⟨[Space 1 1], 1, 1, 0, 1, 1, none, none, none, [], 0⟩ : MatrixGroup)
     (by decide)).2.2.2.2.2⟩

end RayTracing
